import Mathlib

/-!
# Verification of the MinesweeperResearch graph-construction pipeline

Shallow embedding of the two graph-building scripts of the repository:

* `src/scripts/height_calculator.py` — computes a `Height` column from
  `GenerationDepth`, `DifficultyLevel` and `TriggerCells` using a
  per-level increment configuration;
* `src/scripts/InferenceGraph.py` — parses rows into cell records,
  merges structurally identical cells into nodes, and assembles the
  deduplicated dependency edge set.

Rows are modelled as association lists from field names to field values
(Python `dict[str, str]`).  Machine integers are `Int`; the height
configuration values are `ℚ` (Python int/float arithmetic on the small
configuration constants is exact decimal arithmetic, modelled by exact
rational arithmetic).  Python sets of ints are modelled as canonically
sorted duplicate-free lists, built only through `setInsert`, so that
list equality coincides with set equality.  All functions are total and
executable; Python's caught `ValueError` branches appear as `Option`
results of the primitive parsers.
-/

/-! ## String primitives

Models of the Python string operations used by the scripts, written over
`List Char` so that every definition reduces in the kernel.
-/

/-- Characters stripped by Python's `str.strip()` (ASCII whitespace). -/
def pyIsSpace (c : Char) : Bool :=
  c = ' ' || c = '\t' || c = '\n' || c = '\r' || c.toNat = 11 || c.toNat = 12

/-- Python `str.strip()`. -/
def pyTrim (s : String) : String :=
  ⟨((s.data.dropWhile pyIsSpace).reverse.dropWhile pyIsSpace).reverse⟩

/-- Auxiliary splitter for `pySplitComma`. -/
def splitCommaAux : List Char → List Char → List (List Char)
  | [], acc => [acc.reverse]
  | c :: rest, acc =>
    if c = ',' then acc.reverse :: splitCommaAux rest [] else splitCommaAux rest (c :: acc)

/-- Python `str.split(",")`; on the empty string it yields `[""]`. -/
def pySplitComma (s : String) : List String :=
  (splitCommaAux s.data []).map (fun l => ⟨l⟩)

/-- Python `str.replace("Hints:", "")`: delete every (non-overlapping,
left-to-right) occurrence of the pattern `Hints:`. -/
def removeHintsTag : List Char → List Char
  | 'H' :: 'i' :: 'n' :: 't' :: 's' :: ':' :: rest => removeHintsTag rest
  | c :: rest => c :: removeHintsTag rest
  | [] => []

/-- String wrapper for `removeHintsTag`. -/
def pyRemoveHintsTag (s : String) : String := ⟨removeHintsTag s.data⟩

/-- Python `str.startswith("HINT")`. -/
def startsWithHINT : List Char → Bool
  | 'H' :: 'I' :: 'N' :: 'T' :: _ => true
  | _ => false

/-- Python `str.isdigit()` restricted to ASCII: nonempty and all
characters are decimal digits. -/
def pyIsDigit (s : String) : Bool :=
  !s.data.isEmpty && s.data.all Char.isDigit

/-- Numeric value of a string of decimal digits. -/
def digitVal (s : String) : ℕ :=
  s.data.foldl (fun a c => 10 * a + (c.toNat - '0'.toNat)) 0

/-- Validity of a digit run per Python's `int()` grammar, after the first
character (which must be a digit) has been consumed: a sequence of
digits where single underscores may appear between digits. -/
def digitRunRest : List Char → Bool
  | [] => true
  | '_' :: c :: rest => c.isDigit && digitRunRest rest
  | '_' :: [] => false
  | c :: rest => c.isDigit && digitRunRest rest

/-- A full digit run: nonempty, starts with a digit, underscores only
between digits (Python `int()` digit grammar). -/
def digitRun : List Char → Bool
  | [] => false
  | c :: rest => c.isDigit && digitRunRest rest

/-- Value of a digit run, ignoring underscores. -/
def digitRunVal (l : List Char) : ℕ :=
  (l.filter (· ≠ '_')).foldl (fun a c => 10 * a + (c.toNat - '0'.toNat)) 0

/-- Python `int(str)`: strip whitespace, optional sign, then a digit run
(with optional single underscores between digits).  `none` models a
raised `ValueError`. -/
def pyInt (s : String) : Option ℤ :=
  match (pyTrim s).data with
  | '+' :: rest => if digitRun rest then some (digitRunVal rest : ℤ) else none
  | '-' :: rest => if digitRun rest then some (-(digitRunVal rest : ℤ)) else none
  | chars => if digitRun chars then some (digitRunVal chars : ℤ) else none

/-! ## Decimal rendering

Model of Python's decimal rendering of integers (as used by
`f"g_{cells_sorted[0]}"` and by `str()` when the `Height` column is
written back to CSV).  Built on `Nat.digits` so that injectivity is
provable.
-/

/-- Decimal digit character for a value `< 10`. -/
def digitChar (d : ℕ) : Char := Char.ofNat ('0'.toNat + d)

/-- Little-endian decimal digits with explicit fuel (so that the
definition is structurally recursive and reduces in the kernel). -/
def digitsLE : ℕ → ℕ → List ℕ
  | 0, _ => []
  | fuel + 1, n => if n = 0 then [] else n % 10 :: digitsLE fuel (n / 10)

/-- Decimal string of a natural number, most significant digit first. -/
def decimalStr (n : ℕ) : String :=
  if n = 0 then "0" else ⟨((digitsLE n n).map digitChar).reverse⟩

/-- Decimal string of an integer (Python `str`/f-string rendering). -/
def intStr (i : ℤ) : String :=
  if i < 0 then "-" ++ decimalStr (-i).toNat else decimalStr i.toNat

/-! ## Rows -/

/-- A CSV row: a finite mapping from field names to field values,
modelled as an association list (`dict[str, str]`). -/
abbrev Row := List (String × String)

/-- `row.get(name)`: value of the first binding of `name`, if any. -/
def rowGet? (r : Row) (name : String) : Option String :=
  (r.find? (fun p => p.1 = name)).map (·.2)

/-- `row.get(name, default)` for a string default. -/
def rowGet (r : Row) (name : String) (dflt : String) : String :=
  (rowGet? r name).getD dflt

/-- Functional update of a row field (Python `row[name] = value`):
overwrite the first binding in place, else append. -/
def rowSet (r : Row) (name : String) (v : String) : Row :=
  if (r.find? (fun p => p.1 = name)).isSome then
    r.map (fun p => if p.1 = name then (name, v) else p)
  else r ++ [(name, v)]

/-! ## Canonically sorted integer sets

Python `set[int]` values are modelled as sorted duplicate-free lists
built via `setInsert`, so that list equality is set equality.
-/

/-- Insert an integer into a sorted duplicate-free list. -/
def setInsert (x : ℤ) : List ℤ → List ℤ
  | [] => [x]
  | y :: ys =>
    if x < y then x :: y :: ys
    else if x = y then y :: ys
    else y :: setInsert x ys

/-- Union of a canonical set and any list of elements. -/
def setInsertAll (base : List ℤ) (xs : List ℤ) : List ℤ :=
  xs.foldl (fun a x => setInsert x a) base

/-! ## `height_calculator.py` -/

/-- The increment configuration (`config` dict of `height_calculator.py`).
`lv` gives the value bound to the key `lv{level}`; the keys `lv1_depth1`
and `lv1_other` are the two level-1 entries.  A `none` field models an
absent key. -/
structure Config where
  lv1_depth1 : Option ℚ
  lv1_other : Option ℚ
  lv : ℤ → Option ℚ

/-- `DEFAULT_CONFIG` of `height_calculator.py`. -/
def defaultConfig : Config where
  lv1_depth1 := some 1
  lv1_other := some 0
  lv := fun l =>
    if l = 2 then some 1
    else if l = 3 then some 2
    else if l = 4 then some 6
    else if l = 5 then some (33/5)
    else if l = 6 then some (36/5)
    else none

/-- `safe_int` of `height_calculator.py` at a `row.get(name, d)` call
site: an absent field yields the `row.get` default `dAbsent`; a present
field equal to `''` or failing `int()` yields the `safe_int` default
`dParse`. -/
def hcIntField (r : Row) (name : String) (dAbsent dParse : ℤ) : ℤ :=
  match rowGet? r name with
  | none => dAbsent
  | some s => if s = "" then dParse else (pyInt s).getD dParse

/-- `parse_trigger_cells` of `height_calculator.py`: split on commas,
strip, keep `isdigit` tokens, as a set. -/
def parse_trigger_cells (s : String) : List ℤ :=
  if s = "" || pyTrim s = "" then []
  else
    setInsertAll []
      ((pySplitComma s).filterMap (fun part =>
        let part := pyTrim part
        if pyIsDigit part then some ((digitVal part : ℕ) : ℤ) else none))

/-- The increment resolution inlined in `calculate_height` (lines
101–109 of `height_calculator.py`): level 1 uses `lv1_depth1` or
`lv1_other` (in-code defaults 1 and 0); any other level uses the
`lv{level}` key, defaulting to the level itself. -/
def incrementOf (cfg : Config) (level depth : ℤ) : ℚ :=
  if level = 1 then
    if depth = 1 then cfg.lv1_depth1.getD 1 else cfg.lv1_other.getD 0
  else (cfg.lv level).getD (level : ℚ)

/-- Python `max(list)` as used on `parent_heights`: maximum of a
nonempty list, with the script's explicit `0` for the empty case. -/
def maxParentHeight : List ℚ → ℚ
  | [] => 0
  | h :: t => t.foldl max h

/-- `calculate_height` of `height_calculator.py`. -/
def calculate_height (depth level : ℤ) (parentHeights : List ℚ) (cfg : Config) : ℚ :=
  if depth = 0 then 0
  else maxParentHeight parentHeights + incrementOf cfg level depth

/-- Tokens collected from a `SourceHints` field when gathering hint
cells (lines 135–141 of `height_calculator.py`): drop the `Hints:` tag,
split on commas, strip, keep `isdigit` tokens. -/
def hcSourceHintTokens (s : String) : List ℤ :=
  let s := if s ≠ "" then pyRemoveHintsTag s else s
  (pySplitComma s).filterMap (fun part =>
    let part := pyTrim part
    if pyIsDigit part then some ((digitVal part : ℕ) : ℤ) else none)

/-- All cells referenced by `SourceHints`/`TriggerCells` fields
(`hint_cells` of `process_csv`). -/
def hcHintCells (rows : List Row) : List ℤ :=
  rows.foldl
    (fun acc r =>
      setInsertAll (setInsertAll acc (hcSourceHintTokens (rowGet r "SourceHints" "")))
        (parse_trigger_cells (rowGet r "TriggerCells" "")))
    []

/-- Cells that appear as rows with a non-negative `CellIndex`
(`csv_cells` of `process_csv`). -/
def hcCsvCells (rows : List Row) : List ℤ :=
  rows.foldl
    (fun acc r =>
      let c := hcIntField r "CellIndex" (-1) (-1)
      if 0 ≤ c then setInsert c acc else acc)
    []

/-- The initial `cell_heights` mapping: referenced-but-never-defined
cells (pure initial hints) start at height 0. -/
def initialHeights (rows : List Row) : ℤ → Option ℚ := fun c =>
  if ((hcHintCells rows).filter (fun x => !(hcCsvCells rows).contains x)).contains c
  then some 0 else none

/-- Sort key of the row sort in `process_csv`. -/
def hcDepthKey (r : Row) : ℤ := hcIntField r "GenerationDepth" 0 0

/-- Stable insertion of a row after all rows of `≤` depth key. -/
def stableInsertByDepth (r : Row) : List Row → List Row
  | [] => [r]
  | x :: xs =>
    if hcDepthKey r < hcDepthKey x then r :: x :: xs else x :: stableInsertByDepth r xs

/-- `sorted(rows, key=GenerationDepth)`: Python's stable sort. -/
def sortRowsByDepth (rows : List Row) : List Row :=
  rows.foldl (fun acc r => stableInsertByDepth r acc) []

/-- One iteration of the height loop of `process_csv` (lines 165–180):
parse the row, look up the recorded heights of its trigger cells,
compute the height, record it under the row's cell index. -/
def hcStep (cfg : Config) (st : ℤ → Option ℚ) (r : Row) : (ℤ → Option ℚ) × ℚ :=
  let cell := hcIntField r "CellIndex" (-1) (-1)
  let depth := hcIntField r "GenerationDepth" 0 0
  let level := hcIntField r "DifficultyLevel" 1 0
  let triggers := parse_trigger_cells (rowGet r "TriggerCells" "")
  let parentHeights := triggers.filterMap st
  let h := calculate_height depth level parentHeights cfg
  (Function.update st cell (some h), h)

/-- The height loop of `process_csv` over a list of rows, returning the
final `cell_heights` state and the height assigned to each row in
processing order. -/
def hcProcessRows (cfg : Config) : (ℤ → Option ℚ) → List Row → (ℤ → Option ℚ) × List ℚ
  | st, [] => (st, [])
  | st, r :: rs =>
    let p := hcStep cfg st r
    let q := hcProcessRows cfg p.1 rs
    (q.1, p.2 :: q.2)

/-- Final `cell_heights` mapping of `process_csv`. -/
def hcFinalHeights (cfg : Config) (rows : List Row) : ℤ → Option ℚ :=
  (hcProcessRows cfg (initialHeights rows) (sortRowsByDepth rows)).1

/-- Serialization of a computed height into the written `Height` field.
Integer-valued heights render as decimal integer strings (Python
`str(int)`).  A non-integer height is rendered as `num/den`; like
Python's decimal rendering of a float (e.g. `"6.6"`), it contains a
non-digit character and never parses as an integer, which is the only
property downstream code observes. -/
def renderHeight (q : ℚ) : String :=
  if q.den = 1 then intStr q.num else intStr q.num ++ "/" ++ decimalStr q.den

/-- Stable insertion of an index-tagged row after all rows of `≤` depth
key (the indexed variant of `stableInsertByDepth`). -/
def stableInsertIdx (p : ℕ × Row) : List (ℕ × Row) → List (ℕ × Row)
  | [] => [p]
  | x :: xs =>
    if hcDepthKey p.2 < hcDepthKey x.2 then p :: x :: xs else x :: stableInsertIdx p xs

/-- `process_csv`: the output rows, in input order, each augmented with
its computed `Height` field.  Row identity across the sort is tracked by
input position, modelling Python's mutation of the shared row dicts. -/
def hcOutputRows (cfg : Config) (rows : List Row) : List Row :=
  let indexed := rows.enum
  let sorted := indexed.foldl (fun acc p => stableInsertIdx p acc) []
  let hs := (hcProcessRows cfg (initialHeights rows) (sorted.map Prod.snd)).2
  let assign := sorted.zip hs
  indexed.map (fun p =>
    match assign.find? (fun a => a.1.1 = p.1) with
    | some a => rowSet p.2 "Height" (renderHeight a.2)
    | none => p.2)

/-! ## `InferenceGraph.py` -/

/-- `safe_int` of `InferenceGraph.py`: blank strings and failed `int()`
parses yield the default. -/
def safe_int (v : String) (dflt : ℤ) : ℤ :=
  if v = "" || pyTrim v = "" then dflt else (pyInt v).getD dflt

/-- `parse_cell_list` of `InferenceGraph.py`: split on commas, strip,
keep tokens `int()` accepts (including signed ones), in order. -/
def parse_cell_list (s : String) : List ℤ :=
  if s = "" || pyTrim s = "" then []
  else
    (pySplitComma s).filterMap (fun x =>
      let x := pyTrim x
      if x = "" then none else pyInt x)

/-- One parsed row of `build_graph_data` (the loop body of lines
83–118), before aggregation. -/
structure ParsedRow where
  cell : ℤ
  result : String
  height : ℤ
  level : ℤ
  sourceHints : List ℤ
  triggerCells : List ℤ
deriving DecidableEq

/-- Parse one row as the collection loop of `build_graph_data` does;
`none` models the two `continue` branches (blank or literal-header
`CellIndex`, and a `CellIndex` that does not parse non-negative). -/
def parseRow (r : Row) : Option ParsedRow :=
  let cellStr := rowGet r "CellIndex" ""
  if cellStr = "" || pyTrim cellStr = "" || cellStr = "CellIndex" then none
  else
    let cellIdx := safe_int cellStr (-1)
    if cellIdx < 0 then none
    else
      let result0 := pyTrim (rowGet r "Result" "")
      let result := if startsWithHINT result0.data then "HINT" else result0
      let height0 := safe_int (rowGet r "Height" "") (-1)
      let height := if height0 < 0 then safe_int (rowGet r "GenerationDepth" "") 0 else height0
      let level := safe_int (rowGet r "DifficultyLevel" "") 0
      some
        { cell := cellIdx
          result := result
          height := height
          level := level
          sourceHints := parse_cell_list (rowGet r "SourceHints" "")
          triggerCells := parse_cell_list (rowGet r "TriggerCells" "") }

/-- The per-cell record stored in `cell_data`: `parents` is
`frozenset(source_hints + trigger_cells)` as a canonical set. -/
structure CellData where
  result : String
  height : ℤ
  level : ℤ
  parents : List ℤ
deriving DecidableEq

/-- Build the `cell_data` entry of a parsed row. -/
def toCellData (p : ParsedRow) : CellData where
  result := p.result
  height := p.height
  level := p.level
  parents := setInsertAll [] (p.sourceHints ++ p.triggerCells)

/-- Raw `(parent, child, level)` triples contributed by one row (lines
113–118): one per parent reference, only when the level is positive. -/
def rowRawEdges (r : Row) : List (ℤ × ℤ × ℤ) :=
  match parseRow r with
  | none => []
  | some p =>
    if 0 < p.level then (p.sourceHints ++ p.triggerCells).map (fun s => (s, p.cell, p.level))
    else []

/-- Lookup in an association list (Python `dict` read). -/
def assocLookup {α β : Type} [DecidableEq α] (l : List (α × β)) (k : α) : Option β :=
  (l.find? (fun p => p.1 = k)).map (·.2)

/-- Python `dict` write: overwrite the first binding in place, else
append. -/
def upsert {α β : Type} [DecidableEq α] (l : List (α × β)) (k : α) (v : β) : List (α × β) :=
  if (l.find? (fun p => p.1 = k)).isSome then
    l.map (fun p => if p.1 = k then (k, v) else p)
  else l ++ [(k, v)]

/-- `cell_data`: fold the collection loop over all rows. -/
def collectCellData (rows : List Row) : List (ℤ × CellData) :=
  rows.foldl
    (fun cd r =>
      match parseRow r with
      | some p => upsert cd p.cell (toCellData p)
      | none => cd)
    []

/-- `raw_edges`: all raw triples in row order. -/
def collectRawEdges (rows : List Row) : List (ℤ × ℤ × ℤ) :=
  rows.flatMap rowRawEdges

/-- A grouping key of the sibling merge (lines 120–134).  Python uses a
4-tuple `(height, frozenset(), result, cell)` for ungrouped cells and a
3-tuple `(height, parents, result)` for grouped ones; tuples of
different arity are never equal, matching the two constructors. -/
inductive GroupKey
  | single (height : ℤ) (result : String) (cell : ℤ)
  | merged (height : ℤ) (parents : List ℤ) (result : String)
deriving DecidableEq

/-- The merge key of a cell when `merge_siblings` is on: height-0 cells
get a key private to the cell, all others the structural key. -/
def groupKeyOf (c : ℤ) (d : CellData) : GroupKey :=
  if d.height = 0 then .single d.height d.result c
  else .merged d.height d.parents d.result

/-- `defaultdict(list)` append at a key: extend the list bound to the
key, first use binds `[c]`. -/
def addToGroup (gs : List (GroupKey × List ℤ)) (k : GroupKey) (c : ℤ) :
    List (GroupKey × List ℤ) :=
  if (gs.find? (fun p => p.1 = k)).isSome then
    gs.map (fun p => if p.1 = k then (k, p.2 ++ [c]) else p)
  else gs ++ [(k, [c])]

/-- The grouping pass: with merging, fold `addToGroup` over `cell_data`;
without, each cell is its own singleton group (the dict comprehension of
line 133). -/
def makeGroups (mergeSiblings : Bool) (cd : List (ℤ × CellData)) :
    List (GroupKey × List ℤ) :=
  if mergeSiblings then
    cd.foldl (fun gs p => addToGroup gs (groupKeyOf p.1 p.2) p.1) []
  else
    cd.map (fun p => (GroupKey.single p.2.height p.2.result p.1, [p.1]))

/-- A merged node (`nodes[node_id]`). -/
structure NodeData where
  cells : List ℤ
  result : String
  height : ℤ
  level : ℤ
deriving DecidableEq

/-- `sorted(cells)`. -/
def sortCells (cells : List ℤ) : List ℤ :=
  List.insertionSort (· ≤ ·) cells

/-- `f"g_{c}"`. -/
def nodeIdStr (c : ℤ) : String := "g_" ++ intStr c

/-- The node construction loop (lines 140–156): for each group, sort the
member cells, name the node after the first (smallest) one, copy that
cell's record, and register every member in `cell_to_node`.  The
`.error` branches model the `IndexError`/`KeyError` a malformed group
would raise; they are proved unreachable. -/
def buildNodesAux (cd : List (ℤ × CellData)) :
    List (String × NodeData) × List (ℤ × String) → List (GroupKey × List ℤ) →
      Except String (List (String × NodeData) × List (ℤ × String))
  | acc, [] => .ok acc
  | acc, g :: rest =>
    match sortCells g.2 with
    | [] => .error "empty group"
    | c0 :: cs =>
      match assocLookup cd c0 with
      | none => .error "cell data missing"
      | some d =>
        buildNodesAux cd
          (upsert acc.1 (nodeIdStr c0)
            { cells := c0 :: cs, result := d.result, height := d.height, level := d.level },
           (c0 :: cs).foldl (fun m c => upsert m c (nodeIdStr c0)) acc.2)
          rest

/-- The node construction loop, started from empty dicts. -/
def buildNodes (cd : List (ℤ × CellData)) (gs : List (GroupKey × List ℤ)) :
    Except String (List (String × NodeData) × List (ℤ × String)) :=
  buildNodesAux cd ([], []) gs

/-- Insert into the deduplicating edge set (Python `set.add`). -/
def edgeInsert (es : List (String × String × ℤ)) (e : String × String × ℤ) :
    List (String × String × ℤ) :=
  if e ∈ es then es else es ++ [e]

/-- The edge conversion loop (lines 158–168): map both endpoints through
`cell_to_node`, silently drop triples with an unmapped endpoint, drop
self-loops, deduplicate. -/
def buildEdges (cmap : List (ℤ × String)) (raw : List (ℤ × ℤ × ℤ)) :
    List (String × String × ℤ) :=
  raw.foldl
    (fun es t =>
      match assocLookup cmap t.1, assocLookup cmap t.2.1 with
      | some srcNode, some dstNode =>
        if srcNode = dstNode then es else edgeInsert es (srcNode, dstNode, t.2.2)
      | _, _ => es)
    []

/-- The value returned by `build_graph_data`: the node dict, the edge
list, and the cell-to-node mapping. -/
structure GraphOutput where
  nodes : List (String × NodeData)
  edges : List (String × String × ℤ)
  cellToNode : List (ℤ × String)
deriving DecidableEq

instance : DecidableEq (Except String GraphOutput) := fun a b =>
  match a, b with
  | .ok x, .ok y => decidable_of_iff (x = y) (by simp)
  | .error e, .error f => decidable_of_iff (e = f) (by simp)
  | .ok _, .error _ => isFalse (by simp)
  | .error _, .ok _ => isFalse (by simp)

/-- `build_graph_data` of `InferenceGraph.py`. -/
def build_graph_data (rows : List Row) (mergeSiblings : Bool) :
    Except String GraphOutput :=
  let cd := collectCellData rows
  match buildNodes cd (makeGroups mergeSiblings cd) with
  | .error e => .error e
  | .ok (ns, cmap) => .ok ⟨ns, buildEdges cmap (collectRawEdges rows), cmap⟩

/-- Edge list of a run, `[]` on the (unreachable) error branch. -/
def edgesOfRun (r : Except String GraphOutput) : List (String × String × ℤ) :=
  match r with
  | .ok o => o.edges
  | .error _ => []

/-- The two-script pipeline: `height_calculator.py` writes the `Height`
column, `InferenceGraph.py` builds the merged graph from the result. -/
def hcPipeline (cfg : Config) (rows : List Row) : Except String GraphOutput :=
  build_graph_data (hcOutputRows cfg rows) true

/-! ## Spec-side reference definitions -/

/-- The height recurrence as the specification states it: depth-0 facts
have height 0 unconditionally; otherwise
`max(0, max(height(p) for p in parents)) + increment(level, depth)`,
where a parent with no recorded height is omitted and the maximum of an
empty collection is 0 (`foldr max 0`). -/
def specHeight (cfg : Config) (depth level : ℤ) (st : ℤ → Option ℚ)
    (parents : List ℤ) : ℚ :=
  if depth = 0 then 0
  else (parents.filterMap st).foldr max 0 + incrementOf cfg level depth

/-- All values present in a configuration are non-negative (the
specification's "each a non-negative real increment"). -/
def ConfigNonneg (cfg : Config) : Prop :=
  (∀ q, cfg.lv1_depth1 = some q → 0 ≤ q) ∧
  (∀ q, cfg.lv1_other = some q → 0 ≤ q) ∧
  (∀ l q, cfg.lv l = some q → 0 ≤ q)

/-- Every height recorded so far is non-negative. -/
def StateNonneg (st : ℤ → Option ℚ) : Prop :=
  ∀ c q, st c = some q → 0 ≤ q

/-- Every row's parsed `DifficultyLevel` is non-negative (the
specification's rule-level domain `0–6`). -/
def RowsLevelNonneg (rows : List Row) : Prop :=
  ∀ r ∈ rows, 0 ≤ hcIntField r "DifficultyLevel" 1 0

/-! ## Infrastructure lemmas -/

theorem digitsLE_eq (fuel n : ℕ) (h : n ≤ fuel) : digitsLE fuel n = Nat.digits 10 n := by
  induction fuel generalizing n with
  | zero =>
    interval_cases n
    simp [digitsLE]
  | succ fuel ih =>
    by_cases hn : n = 0
    · simp [digitsLE, hn]
    · rw [digitsLE, if_neg hn, Nat.digits_def' (by norm_num) (Nat.pos_of_ne_zero hn),
        ih (n / 10) ?_]
      have h10 : n / 10 < n := Nat.div_lt_self (Nat.pos_of_ne_zero hn) (by norm_num)
      omega

theorem digitChar_inj (a b : ℕ) (ha : a < 10) (hb : b < 10) (h : digitChar a = digitChar b) :
    a = b := by
  revert h
  interval_cases a <;> interval_cases b <;> decide

theorem mapDigitChar_inj (l1 : List ℕ) : ∀ l2 : List ℕ, (∀ x ∈ l1, x < 10) →
    (∀ x ∈ l2, x < 10) → l1.map digitChar = l2.map digitChar → l1 = l2 := by
  induction l1 with
  | nil => intro l2 _ _ h; cases l2 <;> simp_all
  | cons a t ih =>
    intro l2 h1 h2 h
    cases l2 with
    | nil => simp_all
    | cons b t2 =>
      simp only [List.map_cons, List.cons.injEq] at h
      have hab : a = b :=
        digitChar_inj a b (h1 a (by simp)) (h2 b (by simp)) h.1
      have := ih t2 (fun x hx => h1 x (by simp [hx])) (fun x hx => h2 x (by simp [hx])) h.2
      simp [hab, this]

theorem decimalStr_inj (a b : ℕ) (h : decimalStr a = decimalStr b) : a = b := by
  have key : ∀ n : ℕ, n ≠ 0 →
      decimalStr n = ⟨((Nat.digits 10 n).map digitChar).reverse⟩ := by
    intro n hn
    rw [decimalStr, if_neg hn, digitsLE_eq n n le_rfl]
  have nonzero_case : ∀ n : ℕ, n ≠ 0 → decimalStr n ≠ "0" := by
    intro n hn hcontra
    rw [key n hn] at hcontra
    have hdata : ((Nat.digits 10 n).map digitChar).reverse = ['0'] :=
      congrArg String.data hcontra
    have hlen : (Nat.digits 10 n).length = 1 := by
      have := congrArg List.length hdata
      simpa using this
    obtain ⟨d, hd⟩ : ∃ d, Nat.digits 10 n = [d] := by
      match hdig : Nat.digits 10 n with
      | [] => rw [hdig] at hlen; simp at hlen
      | [d] => exact ⟨d, rfl⟩
      | d :: e :: t => rw [hdig] at hlen; simp at hlen
    rw [hd] at hdata
    simp only [List.map_cons, List.map_nil, List.reverse_cons, List.reverse_nil,
      List.nil_append, List.cons.injEq, and_true] at hdata
    have hd10 : d < 10 := Nat.digits_lt_base (by norm_num) (by rw [hd]; exact List.mem_singleton.mpr rfl)
    have hd0 : d = 0 := digitChar_inj d 0 hd10 (by norm_num) (by simpa [digitChar] using hdata)
    have : n = 0 := by
      have hof := Nat.ofDigits_digits 10 n
      rw [hd, hd0] at hof
      simpa using hof.symm
    exact hn this
  by_cases ha : a = 0 <;> by_cases hb : b = 0
  · omega
  · exact absurd h.symm (by rw [ha, decimalStr]; exact fun hc => nonzero_case b hb hc)
  · exact absurd h (by rw [hb, decimalStr]; exact fun hc => nonzero_case a ha hc)
  · rw [key a ha, key b hb] at h
    have hdata : ((Nat.digits 10 a).map digitChar).reverse
        = ((Nat.digits 10 b).map digitChar).reverse := congrArg String.data h
    have hmap : (Nat.digits 10 a).map digitChar = (Nat.digits 10 b).map digitChar :=
      List.reverse_injective hdata
    have hdig : Nat.digits 10 a = Nat.digits 10 b :=
      mapDigitChar_inj _ _ (fun x hx => Nat.digits_lt_base (by norm_num) hx)
        (fun x hx => Nat.digits_lt_base (by norm_num) hx) hmap
    calc a = Nat.ofDigits 10 (Nat.digits 10 a) := (Nat.ofDigits_digits 10 a).symm
    _ = Nat.ofDigits 10 (Nat.digits 10 b) := by rw [hdig]
    _ = b := Nat.ofDigits_digits 10 b

theorem intStr_inj_nonneg (a b : ℤ) (ha : 0 ≤ a) (hb : 0 ≤ b) (h : intStr a = intStr b) :
    a = b := by
  rw [intStr, if_neg (by omega), intStr, if_neg (by omega)] at h
  have := decimalStr_inj _ _ h
  omega

theorem nodeIdStr_inj_nonneg (a b : ℤ) (ha : 0 ≤ a) (hb : 0 ≤ b)
    (h : nodeIdStr a = nodeIdStr b) : a = b := by
  refine intStr_inj_nonneg a b ha hb (String.ext ?_)
  have hdata := congrArg String.data h
  simp only [nodeIdStr, String.data_append] at hdata
  simpa using hdata

section AssocLemmas

variable {α β : Type} [DecidableEq α]

theorem find?_overwrite_ne (l : List (α × β)) (k : α) (v : β) (k' : α) (hk : k' ≠ k) :
    (l.map (fun p => if p.1 = k then (k, v) else p)).find? (fun p => p.1 = k')
      = l.find? (fun p => p.1 = k') := by
  induction l with
  | nil => simp
  | cons p t ih =>
    by_cases hpk : p.1 = k
    · have h1 : ¬ ((k, v).1 = k') := fun hc => hk hc.symm
      have h2 : ¬ (p.1 = k') := fun hc => hk (by rw [← hc, hpk])
      simp only [List.map_cons, if_pos hpk, List.find?_cons]
      rw [decide_eq_false h1, decide_eq_false h2]
      exact ih
    · simp only [List.map_cons, if_neg hpk, List.find?_cons]
      cases hd : decide (p.1 = k')
      · exact ih
      · rfl

theorem find?_overwrite_self (l : List (α × β)) (k : α) (v : β)
    (h : (l.find? (fun p => p.1 = k)).isSome) :
    (l.map (fun p => if p.1 = k then (k, v) else p)).find? (fun p => p.1 = k)
      = some (k, v) := by
  induction l with
  | nil => simp at h
  | cons p t ih =>
    by_cases hpk : p.1 = k
    · simp [List.find?_cons, hpk]
    · have h' : (t.find? (fun p => p.1 = k)).isSome := by
        simpa [List.find?_cons, hpk] using h
      simp only [List.map_cons, if_neg hpk, List.find?_cons]
      rw [decide_eq_false hpk]
      exact ih h'

theorem assocLookup_upsert (l : List (α × β)) (k : α) (v : β) (k' : α) :
    assocLookup (upsert l k v) k' = if k' = k then some v else assocLookup l k' := by
  unfold assocLookup upsert
  by_cases hfound : (l.find? (fun p => p.1 = k)).isSome
  · rw [if_pos hfound]
    by_cases hk' : k' = k
    · subst hk'
      rw [find?_overwrite_self l _ v hfound, if_pos rfl]
      rfl
    · rw [find?_overwrite_ne l k v k' hk', if_neg hk']
  · rw [if_neg hfound, List.find?_append]
    have hnone : l.find? (fun p => p.1 = k) = none := by
      cases hf : l.find? (fun p => p.1 = k) with
      | none => rfl
      | some p => rw [hf] at hfound; simp at hfound
    by_cases hk' : k' = k
    · subst hk'
      rw [hnone, if_pos rfl]
      simp [List.find?_cons]
    · rw [if_neg hk']
      cases hf : l.find? (fun p => p.1 = k') with
      | none =>
        have : ¬ ((k, v).1 = k') := fun hc => hk' hc.symm
        simp [List.find?_cons, decide_eq_false this]
      | some p => simp

theorem assocKeys_nodup_upsert (l : List (α × β)) (k : α) (v : β)
    (h : (l.map Prod.fst).Nodup) : ((upsert l k v).map Prod.fst).Nodup := by
  unfold upsert
  by_cases hfound : (l.find? (fun p => p.1 = k)).isSome
  · rw [if_pos hfound]
    have : (l.map (fun p => if p.1 = k then (k, v) else p)).map Prod.fst = l.map Prod.fst := by
      rw [List.map_map]
      refine List.map_congr_left ?_
      intro p _
      by_cases hpk : p.1 = k
      · simp [hpk]
      · simp [hpk]
    rw [this]
    exact h
  · rw [if_neg hfound]
    have hknot : k ∉ l.map Prod.fst := by
      intro hmem
      obtain ⟨p, hp, hpk⟩ := List.mem_map.mp hmem
      have hsome : (l.find? (fun p => p.1 = k)).isSome :=
        List.find?_isSome.mpr ⟨p, hp, by simp [hpk]⟩
      exact hfound hsome
    simp only [List.map_append, List.map_cons, List.map_nil]
    rw [List.nodup_append]
    refine ⟨h, List.nodup_singleton k, ?_⟩
    intro a ha hb
    simp only [List.mem_singleton] at hb
    subst hb
    exact hknot ha

theorem mem_upsert (l : List (α × β)) (k : α) (v : β) (x : α × β)
    (h : x ∈ upsert l k v) : x = (k, v) ∨ x ∈ l := by
  unfold upsert at h
  by_cases hfound : (l.find? (fun p => p.1 = k)).isSome
  · rw [if_pos hfound] at h
    obtain ⟨p, hp, hpx⟩ := List.mem_map.mp h
    by_cases hpk : p.1 = k
    · left; rw [← hpx]; simp [hpk]
    · right; rw [← hpx]; simpa [hpk] using hp
  · rw [if_neg hfound] at h
    rcases List.mem_append.mp h with h' | h'
    · right; exact h'
    · left; simpa using h'

theorem assocLookup_isSome_of_mem (l : List (α × β)) (p : α × β) (h : p ∈ l) :
    (assocLookup l p.1).isSome := by
  unfold assocLookup
  have hsome : (l.find? (fun q => q.1 = p.1)).isSome :=
    List.find?_isSome.mpr ⟨p, h, by simp⟩
  cases hf : l.find? (fun q => q.1 = p.1) with
  | none => rw [hf] at hsome; simp at hsome
  | some q => rfl

theorem assocLookup_mem (l : List (α × β)) (k : α) (v : β)
    (h : assocLookup l k = some v) : (k, v) ∈ l := by
  unfold assocLookup at h
  cases hf : l.find? (fun q => q.1 = k) with
  | none => rw [hf] at h; simp at h
  | some q =>
    rw [hf] at h
    have hmem := List.mem_of_find?_eq_some hf
    have hk : q.1 = k := by simpa using List.find?_some hf
    obtain ⟨q1, q2⟩ := q
    simp only at hk
    simp only [Option.map] at h
    simp only [Option.some.injEq] at h
    subst hk
    subst h
    exact hmem

theorem assocLookup_eq_of_mem_nodup (l : List (α × β)) (k : α) (v : β)
    (hnd : (l.map Prod.fst).Nodup) (h : (k, v) ∈ l) : assocLookup l k = some v := by
  induction l with
  | nil => simp at h
  | cons p t ih =>
    simp only [List.map_cons, List.nodup_cons] at hnd
    rcases List.mem_cons.mp h with h' | h'
    · rw [← h']
      unfold assocLookup
      simp [List.find?_cons]
    · have hpk : p.1 ≠ k := by
        intro hc
        exact hnd.1 (hc ▸ List.mem_map.mpr ⟨(k, v), h', rfl⟩)
      unfold assocLookup at ih ⊢
      simp only [List.find?_cons, decide_eq_false hpk]
      exact ih hnd.2 h'

end AssocLemmas

/-! ## Height propagation lemmas -/

theorem foldr_max_pull (t : List ℚ) (a b : ℚ) :
    t.foldr max (max a b) = max a (t.foldr max b) := by
  induction t with
  | nil => rfl
  | cons x t ih =>
    simp only [List.foldr_cons, ih]
    rw [max_left_comm]

theorem foldl_max_eq_foldr (t : List ℚ) (a : ℚ) : t.foldl max a = t.foldr max a := by
  induction t generalizing a with
  | nil => rfl
  | cons x t ih =>
    simp only [List.foldl_cons, List.foldr_cons, ih]
    rw [max_comm a x, foldr_max_pull]

theorem maxParentHeight_eq_foldr (l : List ℚ) (h : ∀ x ∈ l, 0 ≤ x) :
    maxParentHeight l = l.foldr max 0 := by
  cases l with
  | nil => rfl
  | cons x t =>
    have hx : max x 0 = x := max_eq_left (h x (by simp))
    show t.foldl max x = max x (t.foldr max 0)
    rw [foldl_max_eq_foldr, ← foldr_max_pull, hx]

theorem foldr_max_zero_nonneg (l : List ℚ) : 0 ≤ l.foldr max 0 := by
  induction l with
  | nil => exact le_refl 0
  | cons x t ih => exact le_trans ih (by simp [List.foldr_cons, le_max_right])

theorem incrementOf_nonneg (cfg : Config) (level depth : ℤ) (hcfg : ConfigNonneg cfg)
    (hlev : 0 ≤ level) : 0 ≤ incrementOf cfg level depth := by
  obtain ⟨h1, h2, h3⟩ := hcfg
  unfold incrementOf
  by_cases hl : level = 1
  · rw [if_pos hl]
    by_cases hd : depth = 1
    · rw [if_pos hd]
      cases hc : cfg.lv1_depth1 with
      | none => norm_num
      | some q => simpa using h1 q hc
    · rw [if_neg hd]
      cases hc : cfg.lv1_other with
      | none => norm_num
      | some q => simpa using h2 q hc
  · rw [if_neg hl]
    cases hc : cfg.lv level with
    | none =>
      simp only [Option.getD]
      exact_mod_cast hlev
    | some q => simpa using h3 level q hc

theorem hcStep_height_eq_spec (cfg : Config) (st : ℤ → Option ℚ) (r : Row)
    (hst : StateNonneg st) :
    (hcStep cfg st r).2 =
      specHeight cfg (hcIntField r "GenerationDepth" 0 0) (hcIntField r "DifficultyLevel" 1 0)
        st (parse_trigger_cells (rowGet r "TriggerCells" "")) := by
  unfold hcStep specHeight calculate_height
  dsimp only
  by_cases hd : hcIntField r "GenerationDepth" 0 0 = 0
  · rw [if_pos hd, if_pos hd]
  · simp only [if_neg hd]
    rw [maxParentHeight_eq_foldr]
    intro x hx
    obtain ⟨c, _, hc⟩ := List.mem_filterMap.mp hx
    exact hst c x hc

theorem hcStep_preserves_nonneg (cfg : Config) (st : ℤ → Option ℚ) (r : Row)
    (hcfg : ConfigNonneg cfg) (hlev : 0 ≤ hcIntField r "DifficultyLevel" 1 0)
    (hst : StateNonneg st) : StateNonneg (hcStep cfg st r).1 := by
  intro c q hq
  unfold hcStep at hq
  simp only [Function.update_apply] at hq
  by_cases hc : c = hcIntField r "CellIndex" (-1) (-1)
  · rw [if_pos hc] at hq
    have hq' : q = calculate_height (hcIntField r "GenerationDepth" 0 0)
        (hcIntField r "DifficultyLevel" 1 0)
        ((parse_trigger_cells (rowGet r "TriggerCells" "")).filterMap st) cfg := by
      simpa using hq.symm
    rw [hq']
    unfold calculate_height
    by_cases hd : hcIntField r "GenerationDepth" 0 0 = 0
    · rw [if_pos hd]
    · rw [if_neg hd]
      have hpar : ∀ x ∈ (parse_trigger_cells (rowGet r "TriggerCells" "")).filterMap st,
          (0:ℚ) ≤ x := by
        intro x hx
        obtain ⟨c', _, hc'⟩ := List.mem_filterMap.mp hx
        exact hst c' x hc'
      have hmax : 0 ≤ maxParentHeight
          ((parse_trigger_cells (rowGet r "TriggerCells" "")).filterMap st) := by
        rw [maxParentHeight_eq_foldr _ hpar]
        exact foldr_max_zero_nonneg _
      have hinc := incrementOf_nonneg cfg _ (hcIntField r "GenerationDepth" 0 0) hcfg hlev
      exact add_nonneg hmax hinc
  · rw [if_neg hc] at hq
    exact hst c q hq

theorem hcProcessRows_height_spec (cfg : Config) (hcfg : ConfigNonneg cfg) :
    ∀ (pre : List Row) (r : Row) (post : List Row) (st : ℤ → Option ℚ),
      StateNonneg st → (∀ x ∈ pre, 0 ≤ hcIntField x "DifficultyLevel" 1 0) →
      (hcProcessRows cfg st (pre ++ r :: post)).2[pre.length]? =
        some (specHeight cfg (hcIntField r "GenerationDepth" 0 0)
          (hcIntField r "DifficultyLevel" 1 0)
          ((hcProcessRows cfg st pre).1)
          (parse_trigger_cells (rowGet r "TriggerCells" ""))) := by
  intro pre
  induction pre with
  | nil =>
    intro r post st hst _
    simp only [List.nil_append, hcProcessRows, List.length_nil]
    rw [List.getElem?_cons_zero]
    rw [hcStep_height_eq_spec cfg st r hst]
  | cons p pre ih =>
    intro r post st hst hlev
    simp only [List.cons_append, hcProcessRows, List.length_cons]
    rw [List.getElem?_cons_succ]
    exact ih r post (hcStep cfg st p).1
      (hcStep_preserves_nonneg cfg st p hcfg (hlev p (by simp)) hst)
      (fun x hx => hlev x (by simp [hx]))

theorem mem_stableInsertByDepth (r x : Row) (l : List Row)
    (h : x ∈ stableInsertByDepth r l) : x = r ∨ x ∈ l := by
  induction l with
  | nil => simpa [stableInsertByDepth] using h
  | cons y t ih =>
    unfold stableInsertByDepth at h
    by_cases hc : hcDepthKey r < hcDepthKey y
    · rw [if_pos hc] at h
      rcases List.mem_cons.mp h with h' | h'
      · exact Or.inl h'
      · exact Or.inr h'
    · rw [if_neg hc] at h
      rcases List.mem_cons.mp h with h' | h'
      · exact Or.inr (by simp [h'])
      · rcases ih h' with h'' | h''
        · exact Or.inl h''
        · exact Or.inr (by simp [h''])

theorem mem_sortRowsByDepth (rows : List Row) (x : Row) (h : x ∈ sortRowsByDepth rows) :
    x ∈ rows := by
  unfold sortRowsByDepth at h
  suffices key : ∀ (l : List Row) (acc : List Row),
      x ∈ l.foldl (fun a r => stableInsertByDepth r a) acc → x ∈ acc ∨ x ∈ l by
    rcases key rows [] h with h' | h'
    · simp at h'
    · exact h'
  intro l
  induction l with
  | nil => intro acc h'; exact Or.inl h'
  | cons y t ih =>
    intro acc h'
    rcases ih (stableInsertByDepth y acc) h' with h'' | h''
    · rcases mem_stableInsertByDepth y x acc h'' with h3 | h3
      · exact Or.inr (by simp [h3])
      · exact Or.inl h3
    · exact Or.inr (by simp [h''])

theorem initialHeights_nonneg (rows : List Row) : StateNonneg (initialHeights rows) := by
  intro c q hq
  unfold initialHeights at hq
  by_cases hc : ((hcHintCells rows).filter (fun x => !(hcCsvCells rows).contains x)).contains c
  · rw [if_pos hc] at hq
    simp only [Option.some.injEq] at hq
    rw [← hq]
  · rw [if_neg hc] at hq
    simp at hq

/-! ## Claim C1 -/

/-- **C1.** For every fact processed by the height propagator, the
computed height equals the reference definition exactly: a fact whose
`GenerationDepth` is 0 gets height 0 unconditionally, and any other fact
gets `max(0, max(height(p) for p in trigger parents)) + increment(level,
depth)`, where a parent with no recorded height is omitted and the
maximum of an empty parent-height collection is 0.  Stated for the
`r`-th row of the depth-sorted processing sequence, against the recorded
heights state reached just before it; the increments and recorded
heights are non-negative, as the specification's configuration and
rule-level domains guarantee. -/
theorem c1_height_matches_reference (cfg : Config) (rows : List Row)
    (pre : List Row) (r : Row) (post : List Row)
    (hcfg : ConfigNonneg cfg) (hlev : RowsLevelNonneg rows)
    (hsplit : sortRowsByDepth rows = pre ++ r :: post) :
    (hcProcessRows cfg (initialHeights rows) (sortRowsByDepth rows)).2[pre.length]? =
      some (specHeight cfg (hcIntField r "GenerationDepth" 0 0)
        (hcIntField r "DifficultyLevel" 1 0)
        ((hcProcessRows cfg (initialHeights rows) pre).1)
        (parse_trigger_cells (rowGet r "TriggerCells" ""))) := by
  rw [hsplit]
  refine hcProcessRows_height_spec cfg hcfg pre r post _ (initialHeights_nonneg rows) ?_
  intro x hx
  refine hlev x (mem_sortRowsByDepth rows x ?_)
  rw [hsplit]
  exact List.mem_append.mpr (Or.inl hx)

/-- Concrete inputs shared by the witnesses. -/
def witCfg : Config := ⟨some 1, some 0, fun _ => none⟩

/-- A concrete well-formed row. -/
def witRow : Row :=
  [("CellIndex", "10"), ("GenerationDepth", "1"), ("DifficultyLevel", "1"),
   ("TriggerCells", "5")]

theorem c1_height_matches_reference_witness :
    ConfigNonneg witCfg ∧ RowsLevelNonneg [witRow] ∧
      sortRowsByDepth [witRow] = [] ++ witRow :: [] ∧
      (hcProcessRows witCfg (initialHeights [witRow]) (sortRowsByDepth [witRow])).2[
          ([] : List Row).length]? =
        some (specHeight witCfg (hcIntField witRow "GenerationDepth" 0 0)
          (hcIntField witRow "DifficultyLevel" 1 0)
          ((hcProcessRows witCfg (initialHeights [witRow]) []).1)
          (parse_trigger_cells (rowGet witRow "TriggerCells" ""))) := by
  have hcfg : ConfigNonneg witCfg := by
    refine ⟨fun q hq => ?_, fun q hq => ?_, fun l q hq => ?_⟩
    · simp only [witCfg, Option.some.injEq] at hq
      rw [← hq]
      exact zero_le_one
    · simp only [witCfg, Option.some.injEq] at hq
      rw [← hq]
    · simp [witCfg] at hq
  have hlev : RowsLevelNonneg [witRow] := by
    unfold RowsLevelNonneg
    decide
  exact ⟨hcfg, hlev, by decide,
    c1_height_matches_reference witCfg [witRow] [] witRow [] hcfg hlev (by decide)⟩

/-! ## Claim C5 -/

/-- **C5.** The increment used for a fact's height resolves as follows:
for `ruleLevel = 1` it is the configured `lv1_depth1` when
`generationDepth = 1` and the configured `lv1_other` otherwise; for any
other `ruleLevel` it is the configured `lv{ruleLevel}` value, defaulting
to the numeric value of `ruleLevel` itself when that key is absent. -/
theorem c5_increment_resolution (cfg : Config) (a b : ℚ) (level depth : ℤ)
    (h1 : cfg.lv1_depth1 = some a) (h2 : cfg.lv1_other = some b) :
    incrementOf cfg level depth =
      if level = 1 then (if depth = 1 then a else b)
      else (cfg.lv level).getD (level : ℚ) := by
  unfold incrementOf
  rw [h1, h2]
  rfl

theorem c5_increment_resolution_witness :
    witCfg.lv1_depth1 = some 1 ∧ witCfg.lv1_other = some 0 ∧
      incrementOf witCfg 3 2 =
        if (3:ℤ) = 1 then (if (2:ℤ) = 1 then (1:ℚ) else 0)
        else (witCfg.lv 3).getD ((3:ℤ) : ℚ) :=
  ⟨rfl, rfl, c5_increment_resolution witCfg 1 0 3 2 rfl rfl⟩

/-! ## Row-skipping lemmas and claims C7, C9 -/

theorem collectCellData_skip (l1 l2 : List Row) (r : Row) (hr : parseRow r = none) :
    collectCellData (l1 ++ r :: l2) = collectCellData (l1 ++ l2) := by
  unfold collectCellData
  rw [List.foldl_append, List.foldl_append, List.foldl_cons, hr]

theorem collectRawEdges_skip (l1 l2 : List Row) (r : Row) (hr : parseRow r = none) :
    collectRawEdges (l1 ++ r :: l2) = collectRawEdges (l1 ++ l2) := by
  unfold collectRawEdges
  have hre : rowRawEdges r = [] := by unfold rowRawEdges; rw [hr]
  simp [hre]

theorem build_graph_data_skip (l1 l2 : List Row) (r : Row) (m : Bool)
    (hr : parseRow r = none) :
    build_graph_data (l1 ++ r :: l2) m = build_graph_data (l1 ++ l2) m := by
  unfold build_graph_data
  rw [collectCellData_skip l1 l2 r hr, collectRawEdges_skip l1 l2 r hr]

/-- **C7.** If a row's `Height` field fails the integer parse (for
example the fractional `"6.6"`/`"7.2"` rendering of the default
`lv5`/`lv6` heights), and the row is otherwise well-formed, the height
stored for the cell — the one used for merging and layout — silently
becomes the parsed `GenerationDepth` value instead (default 0). -/
theorem c7_unparseable_height_falls_back (r : Row) (p : ParsedRow)
    (hp : parseRow r = some p)
    (hfail : pyInt (rowGet r "Height" "") = none) :
    p.height = safe_int (rowGet r "GenerationDepth" "") 0 := by
  have hh : safe_int (rowGet r "Height" "") (-1) = -1 := by
    unfold safe_int
    by_cases hb : (rowGet r "Height" "" = "" || pyTrim (rowGet r "Height" "") = "") = true
    · rw [if_pos (by simpa using hb)]
    · rw [if_neg (by simpa using hb), hfail]
      rfl
  unfold parseRow at hp
  dsimp only at hp
  split at hp
  · exact absurd hp (by simp)
  · split at hp
    · exact absurd hp (by simp)
    · have hpx := (Option.some.inj hp).symm
      rw [hpx]
      dsimp only
      rw [hh]
      norm_num

theorem c7_unparseable_height_falls_back_witness :
    (parseRow [("CellIndex", "10"), ("Height", "6.6"), ("GenerationDepth", "2")] =
        some { cell := 10, result := "", height := 2, level := 0,
               sourceHints := [], triggerCells := [] }) ∧
      pyInt (rowGet [("CellIndex", "10"), ("Height", "6.6"), ("GenerationDepth", "2")]
          "Height" "") = none ∧
      ({ cell := 10, result := "", height := 2, level := 0,
         sourceHints := [], triggerCells := [] } : ParsedRow).height =
        safe_int (rowGet [("CellIndex", "10"), ("Height", "6.6"), ("GenerationDepth", "2")]
          "GenerationDepth" "") 0 :=
  ⟨by decide, by decide,
    c7_unparseable_height_falls_back _ _ (by decide) (by decide)⟩

/-- **C9.** A row whose cell-id field is absent (hence read as `""`),
blank, equal to the literal header token `"CellIndex"`, or not parseable
as a non-negative integer, is silently skipped: its parse yields no
record, and inserting such a row anywhere leaves the entire graph
construction — nodes, member lists, cell-to-node mapping and edges —
unchanged, with no failure. -/
theorem c9_invalid_cellindex_skipped (r : Row)
    (h : rowGet r "CellIndex" "" = "" ∨ pyTrim (rowGet r "CellIndex" "") = "" ∨
         rowGet r "CellIndex" "" = "CellIndex" ∨
         (∀ n, pyInt (rowGet r "CellIndex" "") = some n → n < 0)) :
    parseRow r = none ∧
      ∀ (l1 l2 : List Row) (m : Bool),
        build_graph_data (l1 ++ r :: l2) m = build_graph_data (l1 ++ l2) m := by
  have hnone : parseRow r = none := by
    unfold parseRow
    by_cases hskip : (rowGet r "CellIndex" "" = "" ∨ pyTrim (rowGet r "CellIndex" "") = "" ∨
        rowGet r "CellIndex" "" = "CellIndex")
    · rw [if_pos (by simp only [Bool.or_eq_true, decide_eq_true_eq]; tauto)]
    · have hlast : ∀ n, pyInt (rowGet r "CellIndex" "") = some n → n < 0 := by
        rcases h with h1 | h2 | h3 | h4
        · exact absurd (Or.inl h1) hskip
        · exact absurd (Or.inr (Or.inl h2)) hskip
        · exact absurd (Or.inr (Or.inr h3)) hskip
        · exact h4
      rw [if_neg (by simp only [Bool.or_eq_true, decide_eq_true_eq]; tauto)]
      dsimp only
      rw [if_pos ?hneg]
      case hneg =>
        unfold safe_int
        have hne : ¬ (rowGet r "CellIndex" "" = "" ∨ pyTrim (rowGet r "CellIndex" "") = "") :=
          fun hc => hskip (hc.elim Or.inl (fun hx => Or.inr (Or.inl hx)))
        rw [if_neg (by simpa using hne)]
        cases hpi : pyInt (rowGet r "CellIndex" "") with
        | none => norm_num
        | some n => simpa using hlast n hpi
  exact ⟨hnone, fun l1 l2 m => build_graph_data_skip l1 l2 r m hnone⟩

theorem c9_invalid_cellindex_skipped_witness :
    (rowGet [("CellIndex", "CellIndex"), ("Result", "SAFE")] "CellIndex" "" = "" ∨
     pyTrim (rowGet [("CellIndex", "CellIndex"), ("Result", "SAFE")] "CellIndex" "") = "" ∨
     rowGet [("CellIndex", "CellIndex"), ("Result", "SAFE")] "CellIndex" "" = "CellIndex" ∨
     (∀ n, pyInt (rowGet [("CellIndex", "CellIndex"), ("Result", "SAFE")] "CellIndex" "")
        = some n → n < 0)) ∧
    parseRow [("CellIndex", "CellIndex"), ("Result", "SAFE")] = none ∧
    build_graph_data ([witRow] ++ [("CellIndex", "CellIndex"), ("Result", "SAFE")] :: []) true
      = build_graph_data ([witRow] ++ []) true := by
  have h : rowGet [("CellIndex", "CellIndex"), ("Result", "SAFE")] "CellIndex" ""
      = "CellIndex" := by decide
  have hc := c9_invalid_cellindex_skipped [("CellIndex", "CellIndex"), ("Result", "SAFE")]
    (Or.inr (Or.inr (Or.inl h)))
  exact ⟨Or.inr (Or.inr (Or.inl h)), hc.1, hc.2 [witRow] [] true⟩

/-! ## Claim C6 -/

/-- **C6.** Raw dependency triples are emitted only for rows whose
parsed rule level is strictly positive, one triple per parent reference
(source hints first, then trigger cells); a row whose rule level parses
to 0 contributes no raw dependency triples at all, wherever it sits in
the input. -/
theorem c6_raw_edges_require_positive_level (rows : List Row) :
    (∀ e ∈ collectRawEdges rows, 0 < e.2.2) ∧
    (∀ (l1 l2 : List Row) (r : Row) (p : ParsedRow),
      parseRow r = some p → p.level = 0 →
      collectRawEdges (l1 ++ r :: l2) = collectRawEdges (l1 ++ l2)) ∧
    (∀ (r : Row) (p : ParsedRow), parseRow r = some p → 0 < p.level →
      rowRawEdges r = (p.sourceHints ++ p.triggerCells).map (fun s => (s, p.cell, p.level))) := by
  refine ⟨?_, ?_, ?_⟩
  · intro e he
    obtain ⟨r, _, hre⟩ := List.mem_flatMap.mp he
    unfold rowRawEdges at hre
    cases hp : parseRow r with
    | none => rw [hp] at hre; simp at hre
    | some p =>
      rw [hp] at hre
      dsimp only at hre
      by_cases hl : 0 < p.level
      · rw [if_pos hl] at hre
        obtain ⟨s, _, hs⟩ := List.mem_map.mp hre
        rw [← hs]
        exact hl
      · rw [if_neg hl] at hre
        simp at hre
  · intro l1 l2 r p hp hl
    unfold collectRawEdges
    have hre : rowRawEdges r = [] := by
      unfold rowRawEdges
      rw [hp]
      dsimp only
      rw [if_neg (by omega)]
    simp [hre]
  · intro r p hp hl
    unfold rowRawEdges
    rw [hp]
    dsimp only
    rw [if_pos hl]

theorem c6_raw_edges_require_positive_level_witness :
    (parseRow [("CellIndex", "7"), ("DifficultyLevel", "0"), ("TriggerCells", "1,2")] =
        some { cell := 7, result := "", height := 0, level := 0,
               sourceHints := [], triggerCells := [1, 2] }) ∧
      ({ cell := 7, result := "", height := 0, level := 0,
         sourceHints := [], triggerCells := [1, 2] } : ParsedRow).level = 0 ∧
      collectRawEdges ([witRow] ++
          [("CellIndex", "7"), ("DifficultyLevel", "0"), ("TriggerCells", "1,2")] :: []) =
        collectRawEdges ([witRow] ++ []) := by
  refine ⟨by decide, rfl, ?_⟩
  exact (c6_raw_edges_require_positive_level []).2.1 [witRow] []
    [("CellIndex", "7"), ("DifficultyLevel", "0"), ("TriggerCells", "1,2")]
    { cell := 7, result := "", height := 0, level := 0,
      sourceHints := [], triggerCells := [1, 2] } (by decide) rfl

/-! ## Totality of the graph construction -/

theorem mem_addToGroup (gs : List (GroupKey × List ℤ)) (k : GroupKey) (c : ℤ)
    (g : GroupKey × List ℤ) (h : g ∈ addToGroup gs k c) :
    g ∈ gs ∨ g = (k, [c]) ∨ ∃ g' ∈ gs, g = (g'.1, g'.2 ++ [c]) := by
  unfold addToGroup at h
  by_cases hfound : ((gs.find? (fun p => p.1 = k)).isSome : Prop)
  · rw [if_pos hfound] at h
    obtain ⟨g', hg', hgg⟩ := List.mem_map.mp h
    by_cases hk : g'.1 = k
    · right; right
      refine ⟨g', hg', ?_⟩
      rw [← hgg, if_pos hk, hk]
    · left
      rw [← hgg, if_neg hk]
      exact hg'
  · rw [if_neg hfound] at h
    rcases List.mem_append.mp h with h' | h'
    · exact Or.inl h'
    · right; left
      simpa using h'

theorem makeGroups_sound (cd : List (ℤ × CellData)) (m : Bool) (g : GroupKey × List ℤ)
    (hg : g ∈ makeGroups m cd) :
    g.2 ≠ [] ∧ ∀ c ∈ g.2, (assocLookup cd c).isSome := by
  unfold makeGroups at hg
  by_cases hm : m = true
  · rw [if_pos hm] at hg
    suffices key : ∀ (l : List (ℤ × CellData)) (gs : List (GroupKey × List ℤ)),
        (∀ g' ∈ gs, g'.2 ≠ [] ∧ ∀ c ∈ g'.2, (assocLookup cd c).isSome) →
        (∀ p ∈ l, (assocLookup cd p.1).isSome) →
        ∀ g' ∈ l.foldl (fun gs p => addToGroup gs (groupKeyOf p.1 p.2) p.1) gs,
          g'.2 ≠ [] ∧ ∀ c ∈ g'.2, (assocLookup cd c).isSome by
      exact key cd [] (by simp) (fun p hp => assocLookup_isSome_of_mem cd p hp) g hg
    intro l
    induction l with
    | nil => intro gs hgs _ g' hg'; exact hgs g' hg'
    | cons p t ih =>
      intro gs hgs hl g' hg'
      refine ih (addToGroup gs (groupKeyOf p.1 p.2) p.1) ?_ (fun q hq => hl q (by simp [hq]))
        g' hg'
      intro g'' hg''
      rcases mem_addToGroup gs (groupKeyOf p.1 p.2) p.1 g'' hg'' with h1 | h2 | h3
      · exact hgs g'' h1
      · rw [h2]
        refine ⟨by simp, ?_⟩
        intro c hc
        simp only [List.mem_singleton] at hc
        rw [hc]
        exact hl p (by simp)
      · obtain ⟨g3, hg3, hgg⟩ := h3
        rw [hgg]
        refine ⟨by simp, ?_⟩
        intro c hc
        rcases List.mem_append.mp hc with h' | h'
        · exact (hgs g3 hg3).2 c h'
        · simp only [List.mem_singleton] at h'
          rw [h']
          exact hl p (by simp)
  · rw [if_neg hm] at hg
    obtain ⟨p, hp, hpg⟩ := List.mem_map.mp hg
    rw [← hpg]
    exact ⟨by simp, fun c hc => by
      simp only [List.mem_singleton] at hc
      rw [hc]
      exact assocLookup_isSome_of_mem cd p hp⟩

theorem sortCells_perm (cs : List ℤ) : List.Perm (sortCells cs) cs :=
  List.perm_insertionSort _ cs

theorem sortCells_sorted (cs : List ℤ) : List.Sorted (· ≤ ·) (sortCells cs) :=
  List.sorted_insertionSort _ cs

theorem buildNodesAux_ok (cd : List (ℤ × CellData)) :
    ∀ (gs : List (GroupKey × List ℤ))
      (acc : List (String × NodeData) × List (ℤ × String)),
      (∀ g ∈ gs, g.2 ≠ [] ∧ ∀ c ∈ g.2, (assocLookup cd c).isSome) →
      ∃ out, buildNodesAux cd acc gs = .ok out := by
  intro gs
  induction gs with
  | nil => intro acc _; exact ⟨acc, rfl⟩
  | cons g rest ih =>
    intro acc hgs
    have hne : sortCells g.2 ≠ [] := by
      intro hc
      have := (sortCells_perm g.2).length_eq
      rw [hc] at this
      exact (hgs g (by simp)).1 (List.length_eq_zero.mp this.symm)
    obtain ⟨c0, cs, hsc⟩ := List.exists_cons_of_ne_nil hne
    have hc0 : c0 ∈ g.2 := (sortCells_perm g.2).mem_iff.mp (by rw [hsc]; simp)
    have hlook := (hgs g (by simp)).2 c0 hc0
    obtain ⟨d, hd⟩ := Option.isSome_iff_exists.mp hlook
    unfold buildNodesAux
    rw [hsc]
    dsimp only
    rw [hd]
    exact ih _ (fun g' hg' => hgs g' (by simp [hg']))

/-! ## Claim C10 -/

/-- **C10.** The core graph construction is total: for every input row
sequence — arbitrary field maps, with missing fields, unparseable
integers and non-numeric parent tokens — `build_graph_data` returns a
result and never reaches an error state; malformed data only takes the
defaulting/omission branches of the parsers. -/
theorem c10_build_graph_data_total (rows : List Row) (m : Bool) :
    ∃ out, build_graph_data rows m = .ok out := by
  unfold build_graph_data
  dsimp only
  obtain ⟨out, hout⟩ := buildNodesAux_ok (collectCellData rows)
    (makeGroups m (collectCellData rows)) ([], [])
    (fun g hg => makeGroups_sound (collectCellData rows) m g hg)
  unfold buildNodes
  rw [hout]
  exact ⟨_, rfl⟩

/-! ## Claim C4 -/

theorem buildEdges_inv (cmap : List (ℤ × String)) (raw : List (ℤ × ℤ × ℤ)) :
    ∀ es : List (String × String × ℤ),
      es.Nodup → (∀ e ∈ es, e.1 ≠ e.2.1) →
      (raw.foldl
        (fun es t =>
          match assocLookup cmap t.1, assocLookup cmap t.2.1 with
          | some srcNode, some dstNode =>
            if srcNode = dstNode then es else edgeInsert es (srcNode, dstNode, t.2.2)
          | _, _ => es)
        es).Nodup ∧
      (∀ e ∈ raw.foldl
        (fun es t =>
          match assocLookup cmap t.1, assocLookup cmap t.2.1 with
          | some srcNode, some dstNode =>
            if srcNode = dstNode then es else edgeInsert es (srcNode, dstNode, t.2.2)
          | _, _ => es)
        es, e.1 ≠ e.2.1) := by
  induction raw with
  | nil => intro es h1 h2; exact ⟨h1, h2⟩
  | cons t raw ih =>
    intro es h1 h2
    simp only [List.foldl_cons]
    cases hsrc : assocLookup cmap t.1 with
    | none => exact ih es h1 h2
    | some srcNode =>
      cases hdst : assocLookup cmap t.2.1 with
      | none => exact ih es h1 h2
      | some dstNode =>
        dsimp only
        by_cases hloop : srcNode = dstNode
        · rw [if_pos hloop]
          exact ih es h1 h2
        · rw [if_neg hloop]
          refine ih (edgeInsert es (srcNode, dstNode, t.2.2)) ?_ ?_
          · unfold edgeInsert
            by_cases hmem : (srcNode, dstNode, t.2.2) ∈ es
            · rw [if_pos hmem]; exact h1
            · rw [if_neg hmem]
              rw [List.nodup_append]
              exact ⟨h1, List.nodup_singleton _, by
                intro a ha hb
                simp only [List.mem_singleton] at hb
                subst hb
                exact hmem ha⟩
          · intro e he
            unfold edgeInsert at he
            by_cases hmem : (srcNode, dstNode, t.2.2) ∈ es
            · rw [if_pos hmem] at he; exact h2 e he
            · rw [if_neg hmem] at he
              rcases List.mem_append.mp he with h' | h'
              · exact h2 e h'
              · simp only [List.mem_singleton] at h'
                subst h'
                exact hloop

/-- **C4.** In the edge set produced by the graph construction, no edge
is a self-loop (`fromNodeId ≠ toNodeId` always), and no
`(fromNodeId, toNodeId, ruleLevel)` triple occurs twice, regardless of
how many raw parent references mapped to it. -/
theorem c4_edges_no_selfloop_no_dup (rows : List Row) (m : Bool) (out : GraphOutput)
    (hout : build_graph_data rows m = .ok out) :
    (∀ e ∈ out.edges, e.1 ≠ e.2.1) ∧ out.edges.Nodup := by
  unfold build_graph_data at hout
  dsimp only at hout
  cases hb : buildNodes (collectCellData rows) (makeGroups m (collectCellData rows)) with
  | error e => rw [hb] at hout; exact absurd hout (by simp)
  | ok pr =>
    rw [hb] at hout
    dsimp only at hout
    have hedges : out.edges = buildEdges pr.2 (collectRawEdges rows) := by
      rw [← (Option.some.inj (by simpa using hout) : _ = out)]
    have := buildEdges_inv pr.2 (collectRawEdges rows) [] (List.nodup_nil) (by simp)
    rw [hedges]
    exact ⟨this.2, this.1⟩

/-- Concrete three-row input whose two depth-2 cells merge. -/
def witRowsB : List Row :=
  [[("CellIndex", "10"), ("Result", "SAFE"), ("Height", "1"), ("DifficultyLevel", "1"),
    ("TriggerCells", "5")],
   [("CellIndex", "20"), ("Result", "SAFE"), ("Height", "2"), ("DifficultyLevel", "2"),
    ("TriggerCells", "10")],
   [("CellIndex", "21"), ("Result", "SAFE"), ("Height", "2"), ("DifficultyLevel", "2"),
    ("TriggerCells", "10")]]

/-- The graph produced from `witRowsB`. -/
def witOutB : GraphOutput :=
  ⟨[("g_10", ⟨[10], "SAFE", 1, 1⟩), ("g_20", ⟨[20, 21], "SAFE", 2, 2⟩)],
   [("g_10", "g_20", 2)],
   [(10, "g_10"), (20, "g_20"), (21, "g_20")]⟩

theorem c4_edges_no_selfloop_no_dup_witness :
    build_graph_data witRowsB true = .ok witOutB ∧
      (∀ e ∈ witOutB.edges, e.1 ≠ e.2.1) ∧ witOutB.edges.Nodup :=
  ⟨by decide, c4_edges_no_selfloop_no_dup witRowsB true witOutB (by decide)⟩

/-! ## Cell-data and grouping characterization -/

theorem parseRow_cell_nonneg (r : Row) (p : ParsedRow) (hp : parseRow r = some p) :
    0 ≤ p.cell := by
  unfold parseRow at hp
  dsimp only at hp
  split at hp
  · exact absurd hp (by simp)
  · split at hp
    · exact absurd hp (by simp)
    · have hpx := (Option.some.inj hp).symm
      rw [hpx]
      dsimp only
      omega

theorem collectCellData_keys_nodup (rows : List Row) :
    ((collectCellData rows).map Prod.fst).Nodup := by
  unfold collectCellData
  suffices key : ∀ (l : List Row) (cd : List (ℤ × CellData)),
      (cd.map Prod.fst).Nodup →
      ((l.foldl
        (fun cd r =>
          match parseRow r with
          | some p => upsert cd p.cell (toCellData p)
          | none => cd)
        cd).map Prod.fst).Nodup by
    exact key rows [] (by simp)
  intro l
  induction l with
  | nil => intro cd h; exact h
  | cons r t ih =>
    intro cd h
    simp only [List.foldl_cons]
    cases hp : parseRow r with
    | none => exact ih cd h
    | some p => exact ih _ (assocKeys_nodup_upsert cd p.cell (toCellData p) h)

theorem collectCellData_keys_nonneg (rows : List Row) :
    ∀ q ∈ collectCellData rows, 0 ≤ q.1 := by
  unfold collectCellData
  suffices key : ∀ (l : List Row) (cd : List (ℤ × CellData)),
      (∀ q ∈ cd, 0 ≤ q.1) →
      ∀ q ∈ l.foldl
        (fun cd r =>
          match parseRow r with
          | some p => upsert cd p.cell (toCellData p)
          | none => cd)
        cd, 0 ≤ q.1 by
    exact key rows [] (by simp)
  intro l
  induction l with
  | nil => intro cd h; exact h
  | cons r t ih =>
    intro cd h
    simp only [List.foldl_cons]
    cases hp : parseRow r with
    | none => exact ih cd h
    | some p =>
      refine ih _ ?_
      intro q hq
      rcases mem_upsert cd p.cell (toCellData p) q hq with h' | h'
      · rw [h']
        exact parseRow_cell_nonneg r p hp
      · exact h q h'

section GroupLemmas

variable {α β : Type} [DecidableEq α]

theorem find?_mapAt_ne (l : List (α × β)) (k : α) (f : α × β → β) (k' : α) (hk : k' ≠ k) :
    (l.map (fun p => if p.1 = k then (k, f p) else p)).find? (fun p => p.1 = k')
      = l.find? (fun p => p.1 = k') := by
  induction l with
  | nil => simp
  | cons p t ih =>
    by_cases hpk : p.1 = k
    · have h1 : ¬ ((k, f p).1 = k') := fun hc => hk hc.symm
      have h2 : ¬ (p.1 = k') := fun hc => hk (by rw [← hc, hpk])
      simp only [List.map_cons, if_pos hpk, List.find?_cons]
      rw [decide_eq_false h1, decide_eq_false h2]
      exact ih
    · simp only [List.map_cons, if_neg hpk, List.find?_cons]
      cases hd : decide (p.1 = k')
      · exact ih
      · rfl

theorem find?_mapAt_self (l : List (α × β)) (k : α) (f : α × β → β) (q : α × β)
    (h : l.find? (fun p => p.1 = k) = some q) :
    (l.map (fun p => if p.1 = k then (k, f p) else p)).find? (fun p => p.1 = k)
      = some (k, f q) := by
  induction l with
  | nil => simp at h
  | cons p t ih =>
    by_cases hpk : p.1 = k
    · have hq : q = p := by
        rw [List.find?_cons, decide_eq_true hpk] at h
        exact (Option.some.inj h).symm
      simp only [List.map_cons, if_pos hpk, List.find?_cons]
      rw [hq]
      simp
    · rw [List.find?_cons, decide_eq_false hpk] at h
      simp only [List.map_cons, if_neg hpk, List.find?_cons]
      rw [decide_eq_false hpk]
      exact ih h

end GroupLemmas

/-- The member list bound to a group key (`groups[key]`, `[]` if the key
is not present). -/
def lookupGroup (gs : List (GroupKey × List ℤ)) (k : GroupKey) : List ℤ :=
  (assocLookup gs k).getD []

theorem assocLookup_addToGroup (gs : List (GroupKey × List ℤ)) (k' : GroupKey) (c : ℤ)
    (k : GroupKey) :
    assocLookup (addToGroup gs k' c) k =
      if k = k' then some (lookupGroup gs k ++ [c]) else assocLookup gs k := by
  unfold addToGroup
  by_cases hfound : ((gs.find? (fun p => p.1 = k')).isSome : Prop)
  · rw [if_pos hfound]
    obtain ⟨q, hq⟩ := Option.isSome_iff_exists.mp hfound
    by_cases hk : k = k'
    · subst hk
      unfold assocLookup lookupGroup assocLookup
      rw [find?_mapAt_self gs k (fun p => p.2 ++ [c]) q hq, hq, if_pos rfl]
      rfl
    · unfold assocLookup
      rw [find?_mapAt_ne gs k' (fun p => p.2 ++ [c]) k hk, if_neg hk]
  · rw [if_neg hfound]
    have hnone : gs.find? (fun p => p.1 = k') = none := by
      cases hf : gs.find? (fun p => p.1 = k') with
      | none => rfl
      | some q => rw [hf] at hfound; simp at hfound
    unfold assocLookup lookupGroup assocLookup
    rw [List.find?_append]
    by_cases hk : k = k'
    · subst hk
      rw [hnone]
      simp [List.find?_cons]
    · rw [if_neg hk]
      cases hf : gs.find? (fun p => p.1 = k) with
      | none =>
        have : ¬ ((k', [c]).1 = k) := fun hc => hk hc.symm
        simp [List.find?_cons, decide_eq_false this]
      | some q => simp

theorem groupKeys_nodup_addToGroup (gs : List (GroupKey × List ℤ)) (k : GroupKey) (c : ℤ)
    (h : (gs.map Prod.fst).Nodup) : ((addToGroup gs k c).map Prod.fst).Nodup := by
  unfold addToGroup
  by_cases hfound : ((gs.find? (fun p => p.1 = k)).isSome : Prop)
  · rw [if_pos hfound]
    have : (gs.map (fun p => if p.1 = k then (k, p.2 ++ [c]) else p)).map Prod.fst
        = gs.map Prod.fst := by
      rw [List.map_map]
      refine List.map_congr_left ?_
      intro p _
      by_cases hpk : p.1 = k
      · simp [hpk]
      · simp [hpk]
    rw [this]
    exact h
  · rw [if_neg hfound]
    have hknot : k ∉ gs.map Prod.fst := by
      intro hmem
      obtain ⟨p, hp, hpk⟩ := List.mem_map.mp hmem
      exact hfound (List.find?_isSome.mpr ⟨p, hp, by simp [hpk]⟩)
    simp only [List.map_append, List.map_cons, List.map_nil]
    rw [List.nodup_append]
    refine ⟨h, List.nodup_singleton k, ?_⟩
    intro a ha hb
    simp only [List.mem_singleton] at hb
    subst hb
    exact hknot ha

theorem makeGroups_true_keys_nodup (cd : List (ℤ × CellData)) :
    ((makeGroups true cd).map Prod.fst).Nodup := by
  unfold makeGroups
  rw [if_pos rfl]
  suffices key : ∀ (l : List (ℤ × CellData)) (gs : List (GroupKey × List ℤ)),
      (gs.map Prod.fst).Nodup →
      ((l.foldl (fun gs p => addToGroup gs (groupKeyOf p.1 p.2) p.1) gs).map Prod.fst).Nodup by
    exact key cd [] (by simp)
  intro l
  induction l with
  | nil => intro gs h; exact h
  | cons p t ih =>
    intro gs h
    simp only [List.foldl_cons]
    exact ih _ (groupKeys_nodup_addToGroup gs (groupKeyOf p.1 p.2) p.1 h)

theorem lookupGroup_makeGroups_true (cd : List (ℤ × CellData)) (k : GroupKey) :
    lookupGroup (makeGroups true cd) k =
      (cd.filter (fun p => groupKeyOf p.1 p.2 = k)).map Prod.fst := by
  unfold makeGroups
  rw [if_pos rfl]
  suffices key : ∀ (l : List (ℤ × CellData)) (gs : List (GroupKey × List ℤ)),
      lookupGroup (l.foldl (fun gs p => addToGroup gs (groupKeyOf p.1 p.2) p.1) gs) k =
        lookupGroup gs k ++ (l.filter (fun p => groupKeyOf p.1 p.2 = k)).map Prod.fst by
    rw [key cd []]
    unfold lookupGroup assocLookup
    simp
  intro l
  induction l with
  | nil => intro gs; simp
  | cons p t ih =>
    intro gs
    simp only [List.foldl_cons]
    rw [ih (addToGroup gs (groupKeyOf p.1 p.2) p.1)]
    have hadd : lookupGroup (addToGroup gs (groupKeyOf p.1 p.2) p.1) k =
        if k = groupKeyOf p.1 p.2 then lookupGroup gs k ++ [p.1] else lookupGroup gs k := by
      unfold lookupGroup
      rw [assocLookup_addToGroup]
      by_cases hk : k = groupKeyOf p.1 p.2
      · rw [if_pos hk, if_pos hk]
        rfl
      · rw [if_neg hk, if_neg hk]
    rw [hadd]
    by_cases hk : k = groupKeyOf p.1 p.2
    · rw [if_pos hk, List.filter_cons, if_pos (by simp [hk])]
      simp
    · rw [if_neg hk, List.filter_cons,
        if_neg (by simpa using fun hc : groupKeyOf p.1 p.2 = k => hk hc.symm)]

theorem mem_lookupGroup_iff (cd : List (ℤ × CellData))
    (hnd : (cd.map Prod.fst).Nodup) (k : GroupKey) (c : ℤ) :
    c ∈ lookupGroup (makeGroups true cd) k ↔
      ∃ d, assocLookup cd c = some d ∧ groupKeyOf c d = k := by
  rw [lookupGroup_makeGroups_true]
  constructor
  · intro h
    obtain ⟨p, hp, hpc⟩ := List.mem_map.mp h
    have hpf := List.of_mem_filter hp
    have hpm := List.mem_of_mem_filter hp
    refine ⟨p.2, ?_, ?_⟩
    · rw [← hpc]
      exact assocLookup_eq_of_mem_nodup cd p.1 p.2 hnd (by simpa using hpm)
    · rw [← hpc]
      simpa using hpf
  · intro ⟨d, hd, hk⟩
    have hmem := assocLookup_mem cd c d hd
    refine List.mem_map.mpr ⟨(c, d), ?_, rfl⟩
    refine List.mem_filter.mpr ⟨hmem, by simpa using hk⟩

theorem makeGroups_true_mem_eq (cd : List (ℤ × CellData)) (k : GroupKey) (cs : List ℤ)
    (h : (k, cs) ∈ makeGroups true cd) : cs = lookupGroup (makeGroups true cd) k := by
  have hnd := makeGroups_true_keys_nodup cd
  have := assocLookup_eq_of_mem_nodup (makeGroups true cd) k cs hnd h
  unfold lookupGroup
  rw [this]
  rfl

theorem assocLookup_foldl_upsert_const {α β : Type} [DecidableEq α] (v : β) :
    ∀ (l : List α) (m : List (α × β)) (c : α),
      assocLookup (l.foldl (fun m x => upsert m x v) m) c =
        if c ∈ l then some v else assocLookup m c := by
  intro l
  induction l with
  | nil => intro m c; simp
  | cons x t ih =>
    intro m c
    simp only [List.foldl_cons]
    rw [ih (upsert m x v) c, assocLookup_upsert]
    by_cases hct : c ∈ t
    · rw [if_pos hct, if_pos (by simp [hct])]
    · rw [if_neg hct]
      by_cases hcx : c = x
      · rw [if_pos hcx, if_pos (by simp [hcx])]
      · rw [if_neg hcx, if_neg (by simp [hcx, hct])]

theorem buildNodesAux_nodes_mem (cd : List (ℤ × CellData)) :
    ∀ (gs : List (GroupKey × List ℤ)) (acc : List (String × NodeData) × List (ℤ × String))
      (ns : List (String × NodeData)) (cm : List (ℤ × String)),
      buildNodesAux cd acc gs = .ok (ns, cm) →
      ∀ x ∈ ns, x ∈ acc.1 ∨
        ∃ g ∈ gs, ∃ (c0 : ℤ) (cs : List ℤ) (d : CellData),
          sortCells g.2 = c0 :: cs ∧ assocLookup cd c0 = some d ∧
          x = (nodeIdStr c0,
            { cells := c0 :: cs, result := d.result, height := d.height, level := d.level }) := by
  intro gs
  induction gs with
  | nil =>
    intro acc ns cm hok x hx
    left
    unfold buildNodesAux at hok
    have hacc : acc = (ns, cm) := Except.ok.inj hok
    rw [hacc]
    exact hx
  | cons g rest ih =>
    intro acc ns cm hok x hx
    unfold buildNodesAux at hok
    cases hsc : sortCells g.2 with
    | nil => rw [hsc] at hok; exact absurd hok (by simp)
    | cons c0 cs =>
      rw [hsc] at hok
      dsimp only at hok
      cases hd : assocLookup cd c0 with
      | none => rw [hd] at hok; exact absurd hok (by simp)
      | some d =>
        rw [hd] at hok
        dsimp only at hok
        rcases ih _ ns cm hok x hx with hacc | hrest
        · rcases mem_upsert _ _ _ x hacc with hx1 | hx2
          · right
            exact ⟨g, by simp, c0, cs, d, hsc, hd, hx1⟩
          · left
            exact hx2
        · right
          obtain ⟨g', hg', hrest'⟩ := hrest
          exact ⟨g', by simp [hg'], hrest'⟩

theorem buildNodesAux_cmap_notmem (cd : List (ℤ × CellData)) :
    ∀ (gs : List (GroupKey × List ℤ)) (acc : List (String × NodeData) × List (ℤ × String))
      (ns : List (String × NodeData)) (cm : List (ℤ × String)),
      buildNodesAux cd acc gs = .ok (ns, cm) →
      ∀ c : ℤ, (∀ g ∈ gs, c ∉ g.2) → assocLookup cm c = assocLookup acc.2 c := by
  intro gs
  induction gs with
  | nil =>
    intro acc ns cm hok c _
    unfold buildNodesAux at hok
    have hacc : acc = (ns, cm) := Except.ok.inj hok
    rw [hacc]
  | cons g rest ih =>
    intro acc ns cm hok c hc
    unfold buildNodesAux at hok
    cases hsc : sortCells g.2 with
    | nil => rw [hsc] at hok; exact absurd hok (by simp)
    | cons c0 cs =>
      rw [hsc] at hok
      dsimp only at hok
      cases hd : assocLookup cd c0 with
      | none => rw [hd] at hok; exact absurd hok (by simp)
      | some d =>
        rw [hd] at hok
        dsimp only at hok
        rw [ih _ ns cm hok c (fun g' hg' => hc g' (by simp [hg']))]
        rw [assocLookup_foldl_upsert_const]
        rw [if_neg ?_]
        intro hmem
        exact hc g (by simp) ((sortCells_perm g.2).mem_iff.mp (by rw [hsc]; exact hmem))

theorem buildNodesAux_cmap_lookup (cd : List (ℤ × CellData)) :
    ∀ (gs : List (GroupKey × List ℤ)) (acc : List (String × NodeData) × List (ℤ × String))
      (ns : List (String × NodeData)) (cm : List (ℤ × String)),
      buildNodesAux cd acc gs = .ok (ns, cm) →
      (gs.map Prod.fst).Nodup →
      ∀ (k : GroupKey) (cs : List ℤ) (c : ℤ), (k, cs) ∈ gs → c ∈ cs →
        (∀ g ∈ gs, c ∈ g.2 → g.1 = k) →
        ∃ (c0 : ℤ) (cs' : List ℤ), sortCells cs = c0 :: cs' ∧
          assocLookup cm c = some (nodeIdStr c0) := by
  intro gs
  induction gs with
  | nil =>
    intro acc ns cm _ _ k cs c hmem _ _
    simp at hmem
  | cons g rest ih =>
    intro acc ns cm hok hnd k cs c hmem hc hkey
    rw [List.map_cons] at hnd
    have hnd1 : g.1 ∉ rest.map Prod.fst := (List.nodup_cons.mp hnd).1
    have hnd2 : (rest.map Prod.fst).Nodup := (List.nodup_cons.mp hnd).2
    by_cases hgk : g.1 = k
    · have hg : g = (k, cs) := by
        rcases List.mem_cons.mp hmem with h' | h'
        · exact h'.symm
        · exfalso
          have hk1 : k ∈ rest.map Prod.fst := List.mem_map.mpr ⟨(k, cs), h', rfl⟩
          rw [hgk] at hnd1
          exact hnd1 hk1
      have hcs2 : g.2 = cs := by rw [hg]
      unfold buildNodesAux at hok
      cases hsc : sortCells g.2 with
      | nil =>
        rw [hsc] at hok
        exact absurd hok (by simp)
      | cons c0 cs' =>
        rw [hsc] at hok
        dsimp only at hok
        cases hd : assocLookup cd c0 with
        | none => rw [hd] at hok; exact absurd hok (by simp)
        | some d =>
          rw [hd] at hok
          dsimp only at hok
          refine ⟨c0, cs', by rw [← hcs2]; exact hsc, ?_⟩
          have hnotrest : ∀ g' ∈ rest, c ∉ g'.2 := by
            intro g' hg' hcmem
            have := hkey g' (by simp [hg']) hcmem
            have hk1 : k ∈ rest.map Prod.fst := by
              rw [← this]
              exact List.mem_map.mpr ⟨g', hg', rfl⟩
            rw [hgk] at hnd1
            exact hnd1 hk1
          rw [buildNodesAux_cmap_notmem cd rest _ ns cm hok c hnotrest]
          rw [assocLookup_foldl_upsert_const]
          rw [if_pos ?_]
          rw [← hsc]
          exact (sortCells_perm g.2).mem_iff.mpr (by rw [hcs2]; exact hc)
    · have hrest : (k, cs) ∈ rest := by
        rcases List.mem_cons.mp hmem with h' | h'
        · exact absurd (by rw [← h'] : g.1 = k) hgk
        · exact h'
      have hcg : c ∉ g.2 := fun hcmem => hgk (hkey g (by simp) hcmem)
      unfold buildNodesAux at hok
      cases hsc : sortCells g.2 with
      | nil => rw [hsc] at hok; exact absurd hok (by simp)
      | cons c0 cs' =>
        rw [hsc] at hok
        dsimp only at hok
        cases hd : assocLookup cd c0 with
        | none => rw [hd] at hok; exact absurd hok (by simp)
        | some d =>
          rw [hd] at hok
          dsimp only at hok
          exact ih _ ns cm hok hnd2 k cs c hrest hc
            (fun g' hg' hcmem => hkey g' (by simp [hg']) hcmem)

theorem eq_singleton_of_nodup_all_eq {α : Type} (l : List α) (a : α) (hnd : l.Nodup)
    (hall : ∀ x ∈ l, x = a) (ha : a ∈ l) : l = [a] := by
  cases l with
  | nil => simp at ha
  | cons b t =>
    have hb : b = a := hall b (by simp)
    have ht : t = [] := by
      rw [List.eq_nil_iff_forall_not_mem]
      intro x hx
      have hx' : x = a := hall x (by simp [hx])
      have hbt : b ∉ t := (List.nodup_cons.mp hnd).1
      rw [hx', ← hb] at hx
      exact hbt hx
    rw [hb, ht]

theorem group_key_unique (cd : List (ℤ × CellData)) (hnd : (cd.map Prod.fst).Nodup)
    (c : ℤ) (d : CellData) (hc : assocLookup cd c = some d) :
    ∀ g ∈ makeGroups true cd, c ∈ g.2 → g.1 = groupKeyOf c d := by
  intro g hg hcm
  have hg' : (g.1, g.2) ∈ makeGroups true cd := by simpa using hg
  have hg2 := makeGroups_true_mem_eq cd g.1 g.2 hg'
  rw [hg2] at hcm
  obtain ⟨d', hd', hk'⟩ := (mem_lookupGroup_iff cd hnd g.1 c).mp hcm
  rw [hc] at hd'
  rw [← hk', Option.some.inj hd']

theorem buildNodes_cmap_for_cell (cd : List (ℤ × CellData))
    (hnd : (cd.map Prod.fst).Nodup) (hnn : ∀ q ∈ cd, 0 ≤ q.1)
    (pr : List (String × NodeData) × List (ℤ × String))
    (hb : buildNodes cd (makeGroups true cd) = .ok pr)
    (c : ℤ) (d : CellData) (hc : assocLookup cd c = some d) :
    ∃ (m : ℤ) (cs' : List ℤ),
      sortCells (lookupGroup (makeGroups true cd) (groupKeyOf c d)) = m :: cs' ∧
      assocLookup pr.2 c = some (nodeIdStr m) ∧ 0 ≤ m := by
  have hcg : c ∈ lookupGroup (makeGroups true cd) (groupKeyOf c d) :=
    (mem_lookupGroup_iff cd hnd (groupKeyOf c d) c).mpr ⟨d, hc, rfl⟩
  obtain ⟨cs, hcs⟩ : ∃ cs, assocLookup (makeGroups true cd) (groupKeyOf c d) = some cs := by
    cases hl : assocLookup (makeGroups true cd) (groupKeyOf c d) with
    | none =>
      unfold lookupGroup at hcg
      rw [hl] at hcg
      simp at hcg
    | some cs => exact ⟨cs, rfl⟩
  have hlg : lookupGroup (makeGroups true cd) (groupKeyOf c d) = cs := by
    unfold lookupGroup
    rw [hcs]
    rfl
  have hmem : (groupKeyOf c d, cs) ∈ makeGroups true cd := assocLookup_mem _ _ _ hcs
  rw [hlg] at hcg
  obtain ⟨m, cs', hsc, hlook⟩ :=
    buildNodesAux_cmap_lookup cd (makeGroups true cd) ([], []) pr.1 pr.2 hb
      (makeGroups_true_keys_nodup cd) (groupKeyOf c d) cs c hmem hcg
      (group_key_unique cd hnd c d hc)
  refine ⟨m, cs', by rw [hlg]; exact hsc, hlook, ?_⟩
  have hm : m ∈ cs := (sortCells_perm cs).mem_iff.mp (by rw [hsc]; simp)
  rw [← hlg] at hm
  obtain ⟨dm, hdm, _⟩ := (mem_lookupGroup_iff cd hnd (groupKeyOf c d) m).mp hm
  exact hnn (m, dm) (assocLookup_mem cd m dm hdm)

theorem build_graph_data_parts (rows : List Row) (m : Bool) (out : GraphOutput)
    (hout : build_graph_data rows m = .ok out) :
    ∃ pr, buildNodes (collectCellData rows) (makeGroups m (collectCellData rows)) = .ok pr ∧
      out.nodes = pr.1 ∧ out.cellToNode = pr.2 ∧
      out.edges = buildEdges pr.2 (collectRawEdges rows) := by
  unfold build_graph_data at hout
  dsimp only at hout
  cases hb : buildNodes (collectCellData rows) (makeGroups m (collectCellData rows)) with
  | error e => rw [hb] at hout; exact absurd hout (by simp)
  | ok pr =>
    rw [hb] at hout
    dsimp only at hout
    have hoo : GraphOutput.mk pr.1 (buildEdges pr.2 (collectRawEdges rows)) pr.2 = out :=
      Except.ok.inj hout
    refine ⟨pr, rfl, ?_, ?_, ?_⟩ <;> rw [← hoo]

theorem groupKey_eq_iff (c1 c2 : ℤ) (d1 d2 : CellData) (hne : c1 ≠ c2) :
    groupKeyOf c1 d1 = groupKeyOf c2 d2 ↔
      (d1.height = d2.height ∧ d1.parents = d2.parents ∧ d1.result = d2.result ∧
        d1.height ≠ 0) := by
  unfold groupKeyOf
  by_cases h1 : d1.height = 0 <;> by_cases h2 : d2.height = 0
  · rw [if_pos h1, if_pos h2]
    constructor
    · intro hk
      exact absurd (GroupKey.single.injEq _ _ _ _ _ _ ▸ hk).2.2 hne
    · intro htriple
      exact absurd h1 htriple.2.2.2
  · rw [if_pos h1, if_neg h2]
    constructor
    · intro hk
      exact absurd hk (by simp)
    · intro htriple
      exact absurd h1 htriple.2.2.2
  · rw [if_neg h1, if_pos h2]
    constructor
    · intro hk
      exact absurd hk (by simp)
    · intro htriple
      exact absurd (htriple.1 ▸ h2) h1
  · rw [if_neg h1, if_neg h2]
    constructor
    · intro hk
      have := GroupKey.merged.injEq _ _ _ _ _ _ ▸ hk
      exact ⟨this.1, this.2.1, this.2.2, h1⟩
    · intro htriple
      rw [htriple.1, htriple.2.1, htriple.2.2.1]

/-! ## Claim C2 -/

/-- **C2.** With sibling merging on, two distinct parsed cells are
mapped to the same merged node if and only if they agree on height,
parent-cell-id set and result kind AND their height is not 0; and every
height-0 cell forms a singleton node: any node containing it contains
nothing else. -/
theorem c2_sibling_merge_iff (rows : List Row) (out : GraphOutput)
    (hout : build_graph_data rows true = .ok out)
    (c1 c2 : ℤ) (d1 d2 : CellData)
    (h1 : assocLookup (collectCellData rows) c1 = some d1)
    (h2 : assocLookup (collectCellData rows) c2 = some d2)
    (hne : c1 ≠ c2) :
    ((assocLookup out.cellToNode c1 = assocLookup out.cellToNode c2) ↔
      (d1.height = d2.height ∧ d1.parents = d2.parents ∧ d1.result = d2.result ∧
        d1.height ≠ 0)) ∧
    (d1.height = 0 → ∀ nid nd, (nid, nd) ∈ out.nodes → c1 ∈ nd.cells → nd.cells = [c1]) := by
  obtain ⟨pr, hb, hnodes, hcmap, _⟩ := build_graph_data_parts rows true out hout
  have hnd := collectCellData_keys_nodup rows
  have hnn := collectCellData_keys_nonneg rows
  obtain ⟨m1, cs1', hsc1, hl1, hm1n⟩ :=
    buildNodes_cmap_for_cell (collectCellData rows) hnd hnn pr hb c1 d1 h1
  obtain ⟨m2, cs2', hsc2, hl2, hm2n⟩ :=
    buildNodes_cmap_for_cell (collectCellData rows) hnd hnn pr hb c2 d2 h2
  constructor
  · rw [hcmap, hl1, hl2]
    constructor
    · intro heq
      have hmm : m1 = m2 :=
        nodeIdStr_inj_nonneg m1 m2 hm1n hm2n (Option.some.inj heq)
      have hm1g : m1 ∈ lookupGroup (makeGroups true (collectCellData rows))
          (groupKeyOf c1 d1) :=
        (sortCells_perm _).mem_iff.mp (by rw [hsc1]; simp)
      have hm2g : m1 ∈ lookupGroup (makeGroups true (collectCellData rows))
          (groupKeyOf c2 d2) := by
        rw [hmm]
        exact (sortCells_perm _).mem_iff.mp (by rw [hsc2]; simp)
      obtain ⟨dm, hdm, hkm⟩ :=
        (mem_lookupGroup_iff (collectCellData rows) hnd _ m1).mp hm1g
      obtain ⟨dm2, hdm2, hkm2⟩ :=
        (mem_lookupGroup_iff (collectCellData rows) hnd _ m1).mp hm2g
      rw [hdm] at hdm2
      have hk : groupKeyOf c1 d1 = groupKeyOf c2 d2 := by
        rw [← hkm, ← hkm2, Option.some.inj hdm2]
      exact (groupKey_eq_iff c1 c2 d1 d2 hne).mp hk
    · intro htriple
      have hk := (groupKey_eq_iff c1 c2 d1 d2 hne).mpr htriple
      rw [hk] at hsc1
      rw [hsc1] at hsc2
      have hm12 : m1 = m2 := by injection hsc2 with hh ht
      rw [hm12]
  · intro hz nid nd hnmem hcmem
    rw [hnodes] at hnmem
    rcases buildNodesAux_nodes_mem (collectCellData rows)
        (makeGroups true (collectCellData rows)) ([], []) pr.1 pr.2 hb (nid, nd) hnmem with
      hacc | ⟨g, hg, c0, cs0, dd, hsc, hdd, hx⟩
    · simp at hacc
    · have hnd_cells : nd.cells = sortCells g.2 := by
        rw [hsc]
        have := congrArg Prod.snd hx
        simp only at this
        rw [this]
      have hc1g : c1 ∈ g.2 := by
        rw [hnd_cells] at hcmem
        exact (sortCells_perm g.2).mem_iff.mp hcmem
      have hg1 : g.1 = groupKeyOf c1 d1 :=
        group_key_unique (collectCellData rows) hnd c1 d1 h1 g hg hc1g
      have hkey1 : groupKeyOf c1 d1 = .single d1.height d1.result c1 := by
        unfold groupKeyOf
        rw [if_pos hz]
      have hg2 : g.2 = lookupGroup (makeGroups true (collectCellData rows)) g.1 :=
        makeGroups_true_mem_eq (collectCellData rows) g.1 g.2 (by simpa using hg)
      have hall : ∀ c' ∈ g.2, c' = c1 := by
        intro c' hc'
        rw [hg2] at hc'
        obtain ⟨d', hd', hk'⟩ :=
          (mem_lookupGroup_iff (collectCellData rows) hnd g.1 c').mp hc'
        rw [hg1, hkey1] at hk'
        unfold groupKeyOf at hk'
        by_cases hz' : d'.height = 0
        · rw [if_pos hz'] at hk'
          exact (GroupKey.single.injEq _ _ _ _ _ _ ▸ hk').2.2
        · rw [if_neg hz'] at hk'
          exact absurd hk' (by simp)
      have hnodup : g.2.Nodup := by
        rw [hg2, lookupGroup_makeGroups_true]
        exact List.Nodup.sublist
          (List.Sublist.map Prod.fst (List.filter_sublist _)) hnd
      have hg2single : g.2 = [c1] := eq_singleton_of_nodup_all_eq g.2 c1 hnodup hall hc1g
      rw [hnd_cells, hg2single]
      rfl

/-! ## Claim C8 -/

/-- **C8.** The graph construction is a pure function — two runs on
identical rows and configuration yield identical node, member-cell and
edge collections — and every node's id is derived from its smallest
member cell: the id is the rendering of a member that is a lower bound
of the node's (ascending) member list. -/
theorem c8_deterministic_min_node_ids (rows : List Row) (m : Bool) :
    build_graph_data rows m = build_graph_data rows m ∧
    (∀ out, build_graph_data rows m = .ok out →
      ∀ nid nd, (nid, nd) ∈ out.nodes →
        ∃ c0, nid = nodeIdStr c0 ∧ c0 ∈ nd.cells ∧ ∀ c ∈ nd.cells, c0 ≤ c) := by
  refine ⟨rfl, ?_⟩
  intro out hout nid nd hmem
  obtain ⟨pr, hb, hnodes, _, _⟩ := build_graph_data_parts rows m out hout
  rw [hnodes] at hmem
  rcases buildNodesAux_nodes_mem (collectCellData rows)
      (makeGroups m (collectCellData rows)) ([], []) pr.1 pr.2 hb (nid, nd) hmem with
    hacc | ⟨g, _, c0, cs0, dd, hsc, _, hx⟩
  · simp at hacc
  · have hfst : nid = nodeIdStr c0 := congrArg Prod.fst hx
    have hsnd : nd = ⟨c0 :: cs0, dd.result, dd.height, dd.level⟩ := congrArg Prod.snd hx
    refine ⟨c0, hfst, ?_, ?_⟩
    · rw [hsnd]
      simp
    · intro c hc
      rw [hsnd] at hc
      simp only at hc
      have hsorted := sortCells_sorted g.2
      rw [hsc] at hsorted
      rcases List.mem_cons.mp hc with h' | h'
      · rw [h']
      · exact (List.sorted_cons.mp hsorted).1 c h'

theorem c8_deterministic_min_node_ids_witness :
    build_graph_data witRowsB true = .ok witOutB ∧
    ("g_20", (⟨[20, 21], "SAFE", 2, 2⟩ : NodeData)) ∈ witOutB.nodes ∧
    ∃ c0, "g_20" = nodeIdStr c0 ∧ c0 ∈ ([20, 21] : List ℤ) ∧
      ∀ c ∈ ([20, 21] : List ℤ), c0 ≤ c :=
  ⟨by decide, by decide,
    (c8_deterministic_min_node_ids witRowsB true).2 witOutB (by decide) "g_20"
      ⟨[20, 21], "SAFE", 2, 2⟩ (by decide)⟩

theorem c2_sibling_merge_iff_witness :
    build_graph_data witRowsB true = .ok witOutB ∧
    assocLookup (collectCellData witRowsB) 20 = some ⟨"SAFE", 2, 2, [10]⟩ ∧
    assocLookup (collectCellData witRowsB) 21 = some ⟨"SAFE", 2, 2, [10]⟩ ∧
    (20 : ℤ) ≠ 21 ∧
    (((assocLookup witOutB.cellToNode 20 = assocLookup witOutB.cellToNode 21) ↔
        ((⟨"SAFE", 2, 2, [10]⟩ : CellData).height = (⟨"SAFE", 2, 2, [10]⟩ : CellData).height ∧
          (⟨"SAFE", 2, 2, [10]⟩ : CellData).parents = (⟨"SAFE", 2, 2, [10]⟩ : CellData).parents ∧
          (⟨"SAFE", 2, 2, [10]⟩ : CellData).result = (⟨"SAFE", 2, 2, [10]⟩ : CellData).result ∧
          (⟨"SAFE", 2, 2, [10]⟩ : CellData).height ≠ 0)) ∧
      ((⟨"SAFE", 2, 2, [10]⟩ : CellData).height = 0 →
        ∀ nid nd, (nid, nd) ∈ witOutB.nodes → (20 : ℤ) ∈ nd.cells → nd.cells = [20])) :=
  ⟨by decide, by decide, by decide, by decide,
    c2_sibling_merge_iff witRowsB witOutB (by decide) 20 21 ⟨"SAFE", 2, 2, [10]⟩
      ⟨"SAFE", 2, 2, [10]⟩ (by decide) (by decide) (by decide)⟩

/-! ## Claim C3 -/

/-- **C3 counterexample.** On the single-row input
`{cell:10, depth:1, level:1, triggers:"5"}` with cell 5 absent from the
fact stream, the pipeline does compute height(10) = 1 (and records
height 0 for the pure hint 5), but the produced edge set is empty: in
particular it does not contain the edge `(node(5), node(10), 1)` the
claim asserts, because cell 5 never appears as a row and so is mapped to
no node. -/
theorem c3_counterexample :
    hcFinalHeights defaultConfig [witRow] 10 = some 1 ∧
    hcFinalHeights defaultConfig [witRow] 5 = some 0 ∧
    edgesOfRun (hcPipeline defaultConfig [witRow]) = [] ∧
    ("g_5", "g_10", (1 : ℤ)) ∉ edgesOfRun (hcPipeline defaultConfig [witRow]) := by
  have hpipe : hcPipeline defaultConfig [witRow] =
      .ok ⟨[("g_10", ⟨[10], "", 1, 1⟩)], [], [(10, "g_10")]⟩ := by
    have e2 : hcOutputRows defaultConfig [witRow]
        = [rowSet witRow "Height" (renderHeight ((0:ℚ) + 1))] := rfl
    have e3 : renderHeight ((0:ℚ) + 1) = "1" := by
      rw [zero_add]
      unfold renderHeight
      rw [if_pos Rat.den_one, Rat.num_one]
      decide
    unfold hcPipeline
    rw [e2, e3]
    decide
  have e1 : hcFinalHeights defaultConfig [witRow] 10 = some ((0:ℚ) + 1) := rfl
  refine ⟨by rw [e1, zero_add], rfl, ?_, ?_⟩
  · rw [hpipe]
    rfl
  · rw [hpipe]
    decide

/-- **C3 amended.** Same scenario: height(10) = 0 + `lv1_depth1`
(default 1) = 1, with the absent cell 5 recorded as an initial hint of
height 0; but the output edge set is empty — the raw edge `(5, 10, 1)`
is silently dropped as dangling since cell 5, absent from the fact
stream, belongs to no node. -/
theorem c3_amended_dangling_edge_dropped :
    hcFinalHeights defaultConfig [witRow] 10 = some 1 ∧
    hcFinalHeights defaultConfig [witRow] 5 = some 0 ∧
    hcPipeline defaultConfig [witRow] =
      .ok ⟨[("g_10", ⟨[10], "", 1, 1⟩)], [], [(10, "g_10")]⟩ := by
  have e1 : hcFinalHeights defaultConfig [witRow] 10 = some ((0:ℚ) + 1) := rfl
  refine ⟨by rw [e1, zero_add], rfl, ?_⟩
  have e2 : hcOutputRows defaultConfig [witRow]
      = [rowSet witRow "Height" (renderHeight ((0:ℚ) + 1))] := rfl
  have e3 : renderHeight ((0:ℚ) + 1) = "1" := by
    rw [zero_add]
    unfold renderHeight
    rw [if_pos Rat.den_one, Rat.num_one]
    decide
  unfold hcPipeline
  rw [e2, e3]
  decide
